import Mathlib

/-!
# Verification of the Gundam card-database incremental scraper

Shallow embedding of `main.py`: the record normalizer (`scrape_card`),
change detection (`has_changed`), the image mirror gate
(`upload_image_to_cloudinary`), set discovery (`discover_sets`), the
integrity purge (`purge_bad_data`), the snapshot store (`save_db` and
the load path of `run_update`), and the reconciler scan loop of
`run_update`.

The remote catalog site is modelled as a function from card identifier
to an abstract page (`Page`): `Page.missing` covers a failed fetch, a
redirect to the generic card list, or a page without a recognizable
title element; `Page.found` carries the stripped title text, the raw
label/value bag harvested from the dt/dd rows (the HTML harvesting
itself is an external collaborator), the block icon and the effect
text.  The image mirroring backend is a function from
(image url, public id) to an abstract outcome.  Machine integers do
not overflow here (Python ints are unbounded), so `Int`/`Nat` are used
directly.  The persisted snapshot file is an `Option (List Card)`
(`none` = file absent), and writing is modelled as replacing that
value.
-/

namespace GundamDB

/-! ## Configuration constants (main.py lines 13-27) -/

def FULL_CHECK : Bool := false

def MAX_MISSES : Nat := 3

def KNOWN_SET_PREFIXES : List String :=
  ["ST", "GD", "PR", "UT", "EXRP", "EXB", "EXR", "EXBP"]

/-- `IMAGE_URL_TEMPLATE.format(card_id)` from main.py line 23. -/
def imageUrlOf (card_id : String) : String :=
  "https://www.gundam-gcg.com/en/images/cards/card/" ++ card_id ++ ".webp?251120"

/-! ## `safe_int` (main.py lines 45-52)

`re.sub(r'[^\d-]', '', str(val))` keeps digits and hyphen characters;
`int(...)` succeeds exactly on an optional leading minus sign followed
by at least one digit (the cleaned string contains no whitespace or
underscores), and any failure is swallowed to 0. -/

def cleanVal (s : String) : String :=
  String.mk (s.data.filter (fun c => c.isDigit || c = '-'))

def natOfDigits (ds : List Char) : Nat :=
  ds.foldl (fun n c => n * 10 + (c.toNat - '0'.toNat)) 0

/-- Python `int` applied to a string made only of digits and hyphens:
an optional leading minus sign followed by at least one digit. -/
def pyInt? (s : String) : Option Int :=
  let ds := s.data
  if ds.isEmpty then none
  else if ds.head? = some '-' then
    (if !ds.tail.isEmpty && ds.tail.all (fun c => c.isDigit) then
      some (-(natOfDigits ds.tail : Int))
    else none)
  else if ds.all (fun c => c.isDigit) then some ((natOfDigits ds : Int))
  else none

def safe_int (val : String) : Int :=
  if val = "" then 0
  else
    let c := cleanVal val
    if c = "" then 0
    else
      match pyInt? c with
      | some n => n
      | none => 0

/-! ## Catalog record (the dict built by `scrape_card`, main.py lines 244-251) -/

/-- `deck_quantities`: a Python dict from deck code to count, modelled as an
insertion-ordered association list (Python dicts preserve insertion order,
and `str(...)` comparison in `run_update` is order-sensitive). -/
abbrev DeckQ := List (String × Nat)

structure Card where
  id : String
  card_no : String
  name : String
  series : String
  cost : Int
  hp : Int
  ap : Int
  color : String
  rarity : String
  type' : String
  block_icon : Int
  trait : String
  effect_text : String
  image_url : String
  release_pack : String
  deck_quantities : DeckQ
  last_updated : Nat
deriving DecidableEq, Repr, Inhabited

/-! ## `has_changed` (main.py lines 54-60)

The copies are compared by `json.dumps(..., sort_keys=True)` after popping
`last_updated`.  On two dicts with this fixed field set, sorted-key
serialization is equal iff all fields are equal, where the nested
`deck_quantities` dict is itself serialized with sorted keys, i.e. compared
up to key order.  `canonCard` zeroes `last_updated` (pop) and sorts
`deck_quantities` by key (sort_keys), so string equality of the two dumps
is equality of the canonical forms. -/

/-- Code-point comparison of strings (Python's `<=` on `str`, the order
`json.dumps(sort_keys=True)` sorts by). -/
def charsLe : List Char → List Char → Bool
  | [], _ => true
  | _ :: _, [] => false
  | a :: as, b :: bs =>
      if a.toNat < b.toNat then true
      else if b.toNat < a.toNat then false
      else charsLe as bs

def strLe (a b : String) : Bool := charsLe a.data b.data

def insertPair (p : String × Nat) : DeckQ → DeckQ
  | [] => [p]
  | q :: rest => if strLe p.1 q.1 then p :: q :: rest else q :: insertPair p rest

def dqSort : DeckQ → DeckQ
  | [] => []
  | p :: rest => insertPair p (dqSort rest)

def canonCard (c : Card) : Card :=
  { c with last_updated := 0, deck_quantities := dqSort c.deck_quantities }

def has_changed (old : Option Card) (new : Card) : Bool :=
  match old with
  | none => true
  | some o => decide (canonCard o ≠ canonCard new)

/-! ## Image mirror gate (main.py lines 166-176) -/

/-- Outcome of one `cloudinary.uploader.upload` call: success with the
returned `secure_url`, an exception whose text matches the rate-limit
check (`"420" in str(e) or "Rate Limit" in str(e)`), or any other
exception. -/
inductive UploadRes where
  | success (url : String)
  | rateLimited
  | failed
deriving DecidableEq, Repr

/-- The mirroring backend as a pure function of the arguments of the
upload call. -/
def Backend := String → String → UploadRes

/-- `upload_image_to_cloudinary`: returns the url to use and the new value
of the global `RATE_LIMIT_HIT` flag.  When the flag is already set the
network is not touched and the original url passes through. -/
def upload_image_to_cloudinary (B : Backend) (rlh : Bool)
    (image_url public_id : String) : String × Bool :=
  if rlh then (image_url, rlh)
  else
    match B image_url public_id with
    | .success u => (u, rlh)
    | .rateLimited => (image_url, true)
    | .failed => (image_url, rlh)

/-! ## Remote pages -/

/-- Raw label/value bag after the dt/dd harvesting loop of `scrape_card`
(main.py lines 217-230), with the declared defaults for labels that never
matched. -/
structure RawStats where
  cost : String := "0"
  hp : String := "0"
  ap : String := "0"
  level : String := "0"
  rarity : String := "-"
  color : String := "N/A"
  type' : String := "UNIT"
  trait : String := "-"
  zone : String := "-"
  link : String := "-"
  source : String := "-"
  release : String := "-"
deriving DecidableEq, Repr, Inhabited

/-- One remote detail page, as `scrape_card` observes it.  `missing`
covers a non-200 status, a redirect to the card list, a page without a
`.cardName`/`h1` element, and network errors (all of which make
`scrape_card` return `None`).  `found` carries the stripped title text
(which may still be empty), the harvested raw stats, the block icon and
the effect text. -/
inductive Page where
  | missing
  | found (name : String) (raw : RawStats) (blockIcon : Int) (effectText : String)
deriving DecidableEq, Repr, Inhabited

/-- Whether `scrape_card` recognizes the page as a valid record
(page reachable and stripped title text non-empty). -/
def pagePresent : Page → Bool
  | .missing => false
  | .found name _ _ _ => decide (name ≠ "")

/-- Python `needle in haystack` on strings: list-infix test. -/
def listPfx : List Char → List Char → Bool
  | [], _ => true
  | _ :: _, [] => false
  | a :: as, b :: bs => a = b && listPfx as bs

def listSub (needle : List Char) : List Char → Bool
  | [] => needle.isEmpty
  | h :: hs => listPfx needle (h :: hs) || listSub needle hs

def strContains (hay needle : String) : Bool := listSub needle.data hay.data

/-- `card_id.split("-")[0]` (main.py line 245): the characters before the
first hyphen. -/
def seriesOf (card_id : String) : String :=
  String.mk (card_id.data.takeWhile (fun c => c ≠ '-'))

def lookupDq (m : List (String × DeckQ)) (k : String) : DeckQ :=
  match m.find? (fun p => p.1 = k) with
  | some p => p.2
  | none => []

/-! ## `scrape_card` (main.py lines 205-252)

Returns the normalized record (or `none`), the new `RATE_LIMIT_HIT`
flag, and a ghost boolean recording whether `upload_image_to_cloudinary`
was invoked for this identifier. -/

/-- The IMAGE SAFETY CHECK of `scrape_card` (main.py lines 234-240): if the
existing record already carries a cloudinary.com url, keep it and do not
invoke the uploader; otherwise call `upload_image_to_cloudinary`.  Returns
(final_image_url, new RATE_LIMIT_HIT flag, whether the uploader was
invoked). -/
def imageDecision (B : Backend) (existing_card : Option Card) (card_id : String)
    (rlh : Bool) : String × Bool × Bool :=
  match existing_card with
  | some ec =>
      if strContains ec.image_url "cloudinary.com" then (ec.image_url, rlh, false)
      else
        let ur := upload_image_to_cloudinary B rlh (imageUrlOf card_id) card_id
        (ur.1, ur.2, true)
  | none =>
      let ur := upload_image_to_cloudinary B rlh (imageUrlOf card_id) card_id
      (ur.1, ur.2, true)

def scrape_card (B : Backend) (page : Page) (card_id : String)
    (deck_info_map : List (String × DeckQ)) (existing_card : Option Card)
    (rlh : Bool) (now : Nat) : Option Card × Bool × Bool :=
  match page with
  | .missing => (none, rlh, false)
  | .found name raw blockIcon effectText =>
    if name = "" then (none, rlh, false)
    else
      let d := imageDecision B existing_card card_id rlh
      (some {
          id := card_id
          card_no := card_id
          name := name
          series := seriesOf card_id
          cost := safe_int raw.cost
          hp := safe_int raw.hp
          ap := safe_int raw.ap
          color := raw.color
          rarity := raw.rarity
          type' := raw.type'
          block_icon := blockIcon
          trait := raw.trait
          effect_text := effectText
          image_url := d.1
          release_pack := raw.release
          deck_quantities := lookupDq deck_info_map card_id
          last_updated := now },
        d.2.1, d.2.2)

/-! ## Integrity purge (main.py lines 256-291) -/

def badCard (c : Card) : Bool :=
  -- Criterion 1: must have a name (non-empty, non-sentinel)
  (c.name = "" || c.name = "-")
  -- Criterion 2: must have an image URL
  || c.image_url = ""
  -- Criterion 3: a UNIT with hp == 0 and ap == 0 is a scrape failure
  || (c.type' = "UNIT" && c.hp = 0 && c.ap = 0)

/-- In-memory snapshot: the Python dict keyed by card id, as an
insertion-ordered association list. -/
abbrev DB := List (String × Card)

def purge_bad_data : DB → DB
  | [] => []
  | (k, c) :: rest =>
      if badCard c then purge_bad_data rest else (k, c) :: purge_bad_data rest

/-! ## Snapshot store (main.py lines 293-298 and 303-312) -/

def dbValues (db : DB) : List Card := db.map (fun kc => kc.2)

/-- `save_db`: writes `list(db.values())` only when the snapshot is
non-empty, otherwise the file is left as it was. -/
def save_db (db : DB) (file : Option (List Card)) : Option (List Card) :=
  if db.length > 0 then some (dbValues db) else file

def dbGet (db : DB) (k : String) : Option Card :=
  match db.find? (fun p => p.1 = k) with
  | some p => some p.2
  | none => none

/-- Python dict assignment: replace in place when the key exists
(keeping its position), append otherwise. -/
def dbSet : DB → String → Card → DB
  | [], k, v => [(k, v)]
  | (k', v') :: rest, k, v =>
      if k' = k then (k, v) :: rest else (k', v') :: dbSet rest k v

/-- Load path of `run_update` for files written by this program: every
record the program persists carries its `id` field, so
`c.get('id', c.get('cardNo'))` is `c['id']` and `if key:` drops an
empty id.  (The general load path over arbitrary JSON records,
including the `cardNo` fallback, is modelled separately as
`loadRecs` below.) -/
def loadDb : Option (List Card) → DB
  | none => []
  | some l => l.foldl (fun db c => if c.id ≠ "" then dbSet db c.id c else db) []

/-! ## General load path over arbitrary persisted records (main.py 309-311) -/

/-- An arbitrary persisted JSON record, as far as the load path inspects
it: the `id` field (`none` = key absent), the `cardNo` field, and the
remaining payload.  A JSON `null` value behaves like an absent key here
(both are falsy), so `none` covers it. -/
structure JRec where
  id : Option String
  cardNo : Option String
  payload : String
deriving DecidableEq, Repr

def assocSet {α : Type} : List (String × α) → String → α → List (String × α)
  | [], k, v => [(k, v)]
  | (k', v') :: rest, k, v =>
      if k' = k then (k, v) :: rest else (k', v') :: assocSet rest k v

/-- `key = c.get('id', c.get('cardNo'))`: the `cardNo` fallback applies
only when the `id` key is absent. -/
def loadKey (r : JRec) : Option String :=
  match r.id with
  | some v => some v
  | none => r.cardNo

/-- One iteration of the load loop: `if key: master_db[key] = c`
(a falsy key — absent or empty — drops the record). -/
def loadStep (db : List (String × JRec)) (r : JRec) : List (String × JRec) :=
  match loadKey r with
  | some k => if k ≠ "" then assocSet db k r else db
  | none => db

/-- The load loop over the persisted record sequence. -/
def loadRecs (l : List JRec) : List (String × JRec) :=
  l.foldl loadStep []

/-! ## Set discovery (main.py lines 178-203)

The set-level probe requests `{set_code}-001` and counts a hit when the
response is a real detail page containing a `.cardName`/`h1` element;
the title text is not required to be non-empty there, so a hit is
`pages (set_code ++ "-001") ≠ missing`. -/

def probeHit (pages : String → Page) (set_code : String) : Bool :=
  match pages (set_code ++ "-001") with
  | .missing => false
  | .found _ _ _ _ => true

/-- `f"{prefix}{i:02d}"`. -/
def pad2 (i : Nat) : String :=
  if i < 10 then "0" ++ toString i else toString i

def mkSetCode (pre : String) (i : Nat) : String := pre ++ pad2 i

/-- Inner loop of `discover_sets` for one prefix: `for i in range(1, 10)`
with a consecutive-miss streak, breaking at 2 misses; every hit is
recorded with limit 200. -/
def discoverAux (pages : String → Page) (pre : String) :
    Nat → Nat → Nat → List (String × Nat)
  | _, 0, _ => []
  | i, fuel + 1, streak =>
      let set_code := mkSetCode pre i
      if probeHit pages set_code then
        (set_code, 200) :: discoverAux pages pre (i + 1) fuel 0
      else
        if streak + 1 ≥ 2 then []
        else discoverAux pages pre (i + 1) fuel (streak + 1)

def discover_sets (pages : String → Page) : List (String × Nat) :=
  let found := KNOWN_SET_PREFIXES.flatMap (fun pre => discoverAux pages pre 1 9 0)
  if found.isEmpty then [("ST01", 30)] else found

/-! ## The reconciler scan (main.py lines 300-364)

`f"{code}-{i:03d}"`. -/

def pad3 (i : Nat) : String :=
  if i < 10 then "00" ++ toString i
  else if i < 100 then "0" ++ toString i
  else toString i

def mkId (code : String) (i : Nat) : String := code ++ "-" ++ pad3 i

structure ScanSt where
  db : DB
  rlh : Bool
  file : Option (List Card)
deriving Repr

/-- `if i % 200 == 0: save_db(master_db)` — the periodic checkpoint. -/
def chkSave (i : Nat) (s : ScanSt) : ScanSt :=
  if i % 200 = 0 then { s with file := save_db s.db s.file } else s

/-- Ghost log of the snapshot contents at each checkpoint moment. -/
def chkLog (i : Nat) (db : DB) : List DB :=
  if i % 200 = 0 then [db] else []

/-- One set's item loop (`for i in range(1, limit + 1)`), processing
index `i` with `fuel` indices left (`fuel = limit - i + 1`) and the
current consecutive-miss streak.  Returns the final state, the number
of `scrape_card` calls made (ghost), and the checkpoint log (ghost).
The fast path (`existing and not force_deck_update`, with `FULL_CHECK`
false) skips the fetch, the sleep and the checkpoint; a miss beyond
`MAX_MISSES` breaks out of the set. -/
def scanAux (B : Backend) (pages : String → Page)
    (deckMap : List (String × DeckQ)) (t : Nat) (code : String) :
    Nat → Nat → Nat → ScanSt → ScanSt × Nat × List DB
  | _, 0, _, s => (s, 0, [])
  | i, fuel + 1, streak, s =>
      let card_id := mkId code i
      let existing := dbGet s.db card_id
      let force : Bool :=
        match existing with
        | some ec => decide (ec.deck_quantities ≠ lookupDq deckMap card_id)
        | none => false
      if !FULL_CHECK && existing.isSome && !force then
        -- fast path: reset streak and continue (skips sleep and checkpoint)
        scanAux B pages deckMap t code (i + 1) fuel 0 s
      else
        let sc := scrape_card B (pages card_id) card_id deckMap existing s.rlh t
        match sc.1 with
        | some nc =>
            let db' := if has_changed existing nc then dbSet s.db card_id nc else s.db
            let s' := chkSave i { db := db', rlh := sc.2.1, file := s.file }
            let r := scanAux B pages deckMap t code (i + 1) fuel 0 s'
            (r.1, r.2.1 + 1, chkLog i db' ++ r.2.2)
        | none =>
            if streak + 1 > MAX_MISSES then
              ({ db := s.db, rlh := sc.2.1, file := s.file }, 1, [])
            else
              let s' := chkSave i { db := s.db, rlh := sc.2.1, file := s.file }
              let r := scanAux B pages deckMap t code (i + 1) fuel (streak + 1) s'
              (r.1, r.2.1 + 1, chkLog i s.db ++ r.2.2)

def scanSet (B : Backend) (pages : String → Page)
    (deckMap : List (String × DeckQ)) (t : Nat) (code : String) (limit : Nat)
    (s : ScanSt) : ScanSt × Nat × List DB :=
  scanAux B pages deckMap t code 1 limit 0 s

def scanSets (B : Backend) (pages : String → Page)
    (deckMap : List (String × DeckQ)) (t : Nat) :
    List (String × Nat) → ScanSt → ScanSt × Nat × List DB
  | [], s => (s, 0, [])
  | (code, limit) :: rest, s =>
      let r1 := scanSet B pages deckMap t code limit s
      let r2 := scanSets B pages deckMap t rest r1.1
      (r2.1, r1.2.1 + r2.2.1, r1.2.2 ++ r2.2.2)

/-- `run_update` (main.py lines 300-364), from the card catalog's point
of view: load the persisted snapshot, scan all discovered sets, purge,
final save.  The deck map (output of `sync_decks`) and the set list
(output of `discover_sets`) are functions of the unchanged remote, so
they are passed as parameters shared by consecutive runs; the
`RATE_LIMIT_HIT` circuit breaker starts fresh each run (process-wide
state).  Returns the persisted snapshot file after the run. -/
def run_update (B : Backend) (pages : String → Page)
    (deckMap : List (String × DeckQ)) (sets : List (String × Nat))
    (t : Nat) (file0 : Option (List Card)) : Option (List Card) :=
  let r := scanSets B pages deckMap t sets
    { db := loadDb file0, rlh := false, file := file0 }
  save_db (purge_bad_data r.1.db) r.1.file

/-- All candidate card identifiers generated by a scan over `sets`, in
scan order. -/
def allIds (sets : List (String × Nat)) : List String :=
  sets.flatMap (fun cl => (List.range' 1 cl.2).map (mkId cl.1))

/-- Records equal except possibly in `last_updated`. -/
def cardEqModTs (c1 c2 : Card) : Prop :=
  { c1 with last_updated := 0 } = { c2 with last_updated := 0 }

/-- Persisted snapshots equal except possibly in `last_updated` fields. -/
def fileEqModTs : Option (List Card) → Option (List Card) → Prop
  | none, none => True
  | some l1, some l2 => List.Forall₂ cardEqModTs l1 l2
  | _, _ => False

/-! ## Notions used by the idempotence proof (C1) -/

/-- The file contents after a sequence of `save_db` writes. -/
def saveFold (g : List DB) (f : Option (List Card)) : Option (List Card) :=
  g.foldl (fun acc d => save_db d acc) f

/-- The snapshot obtained by indexing a persisted record list by `id`
(what the load path produces when ids are distinct and non-empty). -/
def lAssocOf (l : List Card) : DB := l.map (fun c => (c.id, c))

/-- `d2` continues `d1`: the snapshot only ever grows by appending during
a from-empty scan. -/
def dbExtends (d1 d2 : DB) : Prop := ∃ d3, d2 = d1 ++ d3

/-- The fields of a scraped record that are determined by the page alone
(independent of mirroring state, deck map and scan time) and that decide
purge badness. -/
def coreMatch (c : Card) (p : Page) : Prop :=
  match p with
  | .missing => False
  | .found name raw _ _ =>
      c.name = name ∧ c.type' = raw.type' ∧ c.hp = safe_int raw.hp ∧ c.ap = safe_int raw.ap

/-- The purge-badness of a record as determined by its page alone, given
a non-empty image reference. -/
def pageBad : Page → Bool
  | .missing => true
  | .found name raw _ _ =>
      (name = "" || name = "-")
      || (raw.type' = "UNIT" && safe_int raw.hp = 0 && safe_int raw.ap = 0)

/-- Every record in the snapshot of a from-empty scan was scraped from a
live page: its key is its (non-empty) id, the page is present, the
badness-determining fields come from the page, the image reference is
non-empty and the deck dict is the deck map's entry. -/
def GoodEntry (pages : String → Page) (deckMap : List (String × DeckQ))
    (k : String) (c : Card) : Prop :=
  k = c.id ∧ c.id ≠ "" ∧ pagePresent (pages k) = true ∧ coreMatch c (pages k) ∧
  c.image_url ≠ "" ∧ c.deck_quantities = lookupDq deckMap k

def DbInv (pages : String → Page) (deckMap : List (String × DeckQ)) (db : DB) : Prop :=
  ∀ kc ∈ db, GoodEntry pages deckMap kc.1 kc.2

/-- Relation between the first run's snapshot and the second run's extra
records (those re-scraped because the first run's purge dropped them):
same keys in the same order, and pairwise equal badness. -/
def RRel (lIds : List String) (d R : DB) : Prop :=
  List.Forall₂ (fun kc1 kc2 => kc2.1 = kc1.1 ∧ badCard kc2.2 = badCard kc1.2)
    (d.filter (fun kc => decide (kc.1 ∉ lIds))) R

/-- The properties of the persisted snapshot produced by a from-empty
first run that drive the second run's fast path. -/
def HLpred (pages : String → Page) (deckMap : List (String × DeckQ))
    (l : List Card) : Prop :=
  ∀ c ∈ l, GoodEntry pages deckMap c.id c

/-- The simulation invariant between a scan of the first run (`r1`,
started from snapshot state `s1`) and the same scan of the second run
(`r2`, started from `s2` = the loaded first-run output `l` plus already
re-scraped records): the second run's snapshot stays `l` plus a list of
re-scraped records matching the first run's non-`l` records key-for-key
with equal badness; the first run's snapshot grows by appending, all its
records are faithfully scraped, the file is the fold of the checkpoint
writes, the first run's checkpoint log is an increasing chain bounded by
the final snapshot, and every second-run checkpoint pairs with a
first-run checkpoint. -/
def SimConcl (pages : String → Page) (deckMap : List (String × DeckQ))
    (l : List Card) (s1 s2 : ScanSt) (future : List String)
    (r1 r2 : ScanSt × Nat × List DB) : Prop :=
  (∃ R', r2.1.db = lAssocOf l ++ R' ∧ RRel (l.map Card.id) r1.1.db R')
  ∧ DbInv pages deckMap r1.1.db
  ∧ dbExtends s1.db r1.1.db
  ∧ ((r1.1.db.map Prod.fst) ++ future).Nodup
  ∧ r1.1.file = saveFold r1.2.2 s1.file
  ∧ r2.1.file = saveFold r2.2.2 s2.file
  ∧ (∀ d ∈ r1.2.2, dbExtends s1.db d ∧ dbExtends d r1.1.db)
  ∧ List.Pairwise dbExtends r1.2.2
  ∧ (∀ d2 ∈ r2.2.2, ∃ d1 ∈ r1.2.2, ∃ Rd, d2 = lAssocOf l ++ Rd
      ∧ RRel (l.map Card.id) d1 Rd)

/-! ## Concrete scenarios used as test inputs and counterexamples -/

/-- A mirroring backend whose every upload fails (pass-through). -/
def bFail : Backend := fun _ _ => UploadRes.failed

/-- Synthetic namespace of §8 of the spec: hits at item indices 1-5 of
set ST01, misses everywhere after. -/
def pagesC2 : String → Page := fun cid =>
  if cid = "ST01-001" || cid = "ST01-002" || cid = "ST01-003" ||
     cid = "ST01-004" || cid = "ST01-005" then
    Page.found "CardN" { hp := "5", ap := "5" } 0 ""
  else Page.missing

/-- Remote with a single valid page at ST01-001. -/
def pagesC4 : String → Page := fun cid =>
  if cid = "ST01-001" then Page.found "Alpha" {} 0 "" else Page.missing

/-- Deck map giving ST01-001 the same deck dict as `cardC4` below but in a
different insertion order (equal as a dict, different `str(...)`). -/
def dmC4 : List (String × DeckQ) := [("ST01-001", [("b", 2), ("a", 1)])]

/-- The record `scrape_card` produces for `pagesC4 "ST01-001"` under `bFail`,
except that its deck dict insertion order differs from the deck map's and
its timestamp is 5. -/
def cardC4 : Card :=
  { id := "ST01-001", card_no := "ST01-001", name := "Alpha", series := "ST01",
    cost := 0, hp := 0, ap := 0, color := "N/A", rarity := "-", type' := "UNIT",
    block_icon := 0, trait := "-", effect_text := "",
    image_url := imageUrlOf "ST01-001", release_pack := "-",
    deck_quantities := [("a", 1), ("b", 2)], last_updated := 5 }

/-- The record `scrape_card` actually produces in the `cardC4` scenario:
same as `cardC4` up to deck-dict key order and timestamp. -/
def cardC4new : Card :=
  { cardC4 with deck_quantities := [("b", 2), ("a", 1)], last_updated := 99 }

/-- Remote where exactly ST01 (a starter prefix) and EXB01 (a booster
prefix) are live. -/
def pagesC7 : String → Page := fun cid =>
  if cid = "ST01-001" || cid = "EXB01-001" then Page.found "X" {} 0 ""
  else Page.missing

/-- A persisted record with no `id` field but a `cardNo` field. -/
def jrecC8 : JRec := { id := none, cardNo := some "ST01-001", payload := "p" }

/-- A well-formed existing record already pinned to a mirrored URL. -/
def cardC3 : Card :=
  { id := "ST01-001", card_no := "ST01-001", name := "Gundam", series := "ST01",
    cost := 2, hp := 3, ap := 3, color := "Blue", rarity := "R", type' := "UNIT",
    block_icon := 1, trait := "-", effect_text := "",
    image_url := "https://res.cloudinary.com/demo/gundam_cards/ST01-001.webp",
    release_pack := "-", deck_quantities := [], last_updated := 7 }

/-- A UNIT record with hp = 0 and ap = 0 (scrape-failure signature). -/
def unitZero : Card :=
  { cardC3 with id := "ST01-002", card_no := "ST01-002", hp := 0, ap := 0 }

/-- A UNIT record with hp = 0 and ap = 5 (legitimate, must be kept). -/
def unitFive : Card :=
  { cardC3 with id := "ST01-003", card_no := "ST01-003", hp := 0, ap := 5 }

/-- A record with a sentinel name. -/
def noName : Card := { cardC3 with id := "ST01-004", name := "-" }

/-- A record with an empty image reference. -/
def noImage : Card := { cardC3 with id := "ST01-005", image_url := "" }

def dbC5 : DB :=
  [("ST01-001", cardC3), ("ST01-002", unitZero), ("ST01-003", unitFive),
   ("ST01-004", noName), ("ST01-005", noImage)]

/-! # Theorems -/

/-! ## Integrity purge (C5) -/

theorem purge_eq_filter (db : DB) :
    purge_bad_data db = db.filter (fun kc => !badCard kc.2) := by
  induction db with
  | nil => rfl
  | cons kc rest ih =>
      obtain ⟨k, c⟩ := kc
      by_cases h : badCard c
      · simp [purge_bad_data, h, ih]
      · simp [purge_bad_data, h, ih]

theorem badCard_eq_false_iff (c : Card) :
    badCard c = false ↔
      (c.name ≠ "" ∧ c.name ≠ "-" ∧ c.image_url ≠ "" ∧
        ¬(c.type' = "UNIT" ∧ c.hp = 0 ∧ c.ap = 0)) := by
  simp [badCard]
  tauto

/-- C5: the Integrity Purge removes exactly the records with an empty or
sentinel name, an empty image reference, or type UNIT with hp and ap
both 0; every kept record is unmodified (the purge is a filter); in
particular a UNIT with hp 0 and ap 5 whose name and image are present
is kept. -/
theorem C5_purge_correctness (db : DB) :
    purge_bad_data db = db.filter (fun kc => !badCard kc.2)
    ∧ (∀ k c, (k, c) ∈ purge_bad_data db ↔
        ((k, c) ∈ db ∧ c.name ≠ "" ∧ c.name ≠ "-" ∧ c.image_url ≠ "" ∧
          ¬(c.type' = "UNIT" ∧ c.hp = 0 ∧ c.ap = 0)))
    ∧ (∀ k c, (k, c) ∈ db → c.type' = "UNIT" → c.hp = 0 → c.ap = 5 →
        c.name ≠ "" → c.name ≠ "-" → c.image_url ≠ "" →
        (k, c) ∈ purge_bad_data db) := by
  refine ⟨purge_eq_filter db, fun k c => ?_, fun k c hm ht hhp hap hn1 hn2 hi => ?_⟩
  · rw [purge_eq_filter, List.mem_filter]
    constructor
    · rintro ⟨hm, hb⟩
      refine ⟨hm, (badCard_eq_false_iff c).mp ?_⟩
      simpa using hb
    · rintro ⟨hm, hrest⟩
      refine ⟨hm, ?_⟩
      simpa using (badCard_eq_false_iff c).mpr hrest
  · rw [purge_eq_filter, List.mem_filter]
    refine ⟨hm, ?_⟩
    have : badCard c = false := by
      rw [badCard_eq_false_iff]
      refine ⟨hn1, hn2, hi, ?_⟩
      rintro ⟨-, -, h5⟩
      rw [hap] at h5
      exact absurd h5 (by decide)
    simp [this]

theorem C5_purge_correctness_witness :
    ("ST01-003", unitFive) ∈ purge_bad_data dbC5
    ∧ ("ST01-002", unitZero) ∉ purge_bad_data dbC5 := by
  constructor
  · exact (C5_purge_correctness dbC5).2.2 "ST01-003" unitFive (by decide) (by decide)
      (by decide) (by decide) (by decide) (by decide) (by decide)
  · intro h
    exact (((C5_purge_correctness dbC5).2.1 "ST01-002" unitZero).mp h).2.2.2.2 (by decide)

/-! ## Change detection (C6) -/

/-- C6: `has_changed` ignores exactly `last_updated`: a missing old record
is always reported changed; two records differing only in `last_updated`
are reported unchanged; and the comparison is unchanged precisely when
every other field agrees (the nested deck dict compared up to key order,
as `json.dumps(sort_keys=True)` does). -/
theorem C6_change_detection :
    (∀ n, has_changed none n = true)
    ∧ (∀ (o : Card) (x : Nat), has_changed (some o) { o with last_updated := x } = false)
    ∧ (∀ o n, has_changed (some o) n = false ↔
        (o.id = n.id ∧ o.card_no = n.card_no ∧ o.name = n.name ∧ o.series = n.series ∧
         o.cost = n.cost ∧ o.hp = n.hp ∧ o.ap = n.ap ∧ o.color = n.color ∧
         o.rarity = n.rarity ∧ o.type' = n.type' ∧ o.block_icon = n.block_icon ∧
         o.trait = n.trait ∧ o.effect_text = n.effect_text ∧ o.image_url = n.image_url ∧
         o.release_pack = n.release_pack ∧
         dqSort o.deck_quantities = dqSort n.deck_quantities)) := by
  refine ⟨fun n => rfl, fun o x => ?_, fun o n => ?_⟩
  · simp [has_changed, canonCard]
  · cases o
    cases n
    simp [has_changed, canonCard, Card.mk.injEq]

theorem C6_change_detection_witness :
    has_changed none cardC3 = true
    ∧ has_changed (some cardC3) { cardC3 with last_updated := 123 } = false :=
  ⟨C6_change_detection.1 cardC3, C6_change_detection.2.1 cardC3 123⟩

/-! ## Mirror pinning (C3) -/

/-- C3: if the existing record for an identifier carries a mirrored
(cloudinary.com) image url, `scrape_card` with that record as context
never invokes `upload_image_to_cloudinary`, leaves the rate-limit flag
untouched, and any record it returns keeps exactly the existing image
url. -/
theorem C3_mirror_pinning (B : Backend) (page : Page) (cid : String)
    (dm : List (String × DeckQ)) (ec : Card) (rlh : Bool) (t : Nat)
    (h : strContains ec.image_url "cloudinary.com" = true) :
    (scrape_card B page cid dm (some ec) rlh t).2.2 = false
    ∧ (scrape_card B page cid dm (some ec) rlh t).2.1 = rlh
    ∧ ∀ c, (scrape_card B page cid dm (some ec) rlh t).1 = some c →
        c.image_url = ec.image_url := by
  cases page with
  | missing => exact ⟨rfl, rfl, fun c hc => by simp [scrape_card] at hc⟩
  | found name raw bi eff =>
      by_cases hn : name = ""
      · simp [scrape_card, hn]
      · refine ⟨?_, ?_, ?_⟩
        · simp [scrape_card, hn, imageDecision, h]
        · simp [scrape_card, hn, imageDecision, h]
        · intro c hc
          simp [scrape_card, hn, imageDecision, h] at hc
          rw [← hc]

theorem C3_mirror_pinning_witness :
    (scrape_card bFail (Page.found "Gundam" {} 0 "") "ST01-001" [] (some cardC3) false 9).2.2 = false
    ∧ (scrape_card bFail (Page.found "Gundam" {} 0 "") "ST01-001" [] (some cardC3) false 9).1.map
        Card.image_url = some cardC3.image_url :=
  ⟨(C3_mirror_pinning bFail (Page.found "Gundam" {} 0 "") "ST01-001" [] cardC3 false 9
      (by decide)).1,
   by decide⟩

/-! ## Numeric normalization (C9) -/

/-- C9 counterexample: `safe_int` is not non-negative — on the raw value
`"-5"` it returns `-5`, and the normalized record then carries a
negative hp. -/
theorem C9_counterexample :
    safe_int "-5" = -5
    ∧ ((scrape_card bFail (Page.found "Neg" { hp := "-5" } 0 "") "ST01-001" [] none
        false 0).1.map Card.hp) = some (-5)
    ∧ ¬(0 ≤ (-5 : Int)) := by decide

theorem str_eq_empty_iff (s : String) : s = "" ↔ s.data = [] := by
  rw [String.ext_iff]

/-- C9 amended: the numeric attributes of a normalized record are the
`safe_int` images of the raw values; `safe_int` returns 0 on an absent
(empty) or unparsable value, and its result is non-negative whenever
the raw value contains no minus sign. -/
theorem C9_safe_int_amended :
    (∀ s : String, (∀ ch ∈ s.data, ch ≠ '-') → 0 ≤ safe_int s)
    ∧ safe_int "" = 0
    ∧ (∀ s, pyInt? (cleanVal s) = none → safe_int s = 0)
    ∧ (∀ B name raw bi eff cid dm ex rlh t c,
        (scrape_card B (Page.found name raw bi eff) cid dm ex rlh t).1 = some c →
        c.cost = safe_int raw.cost ∧ c.hp = safe_int raw.hp ∧ c.ap = safe_int raw.ap) := by
  refine ⟨fun s hs => ?_, rfl, fun s hp => ?_, ?_⟩
  · by_cases h0 : s = ""
    · simp [safe_int, h0]
    · by_cases h1 : cleanVal s = ""
      · simp [safe_int, h0, h1]
      · have hd : ∀ ch ∈ (cleanVal s).data, ch.isDigit = true := by
          intro ch hch
          have hmem : ch ∈ s.data ∧ (ch.isDigit || decide (ch = '-')) = true := by
            simpa [cleanVal] using hch
          have h2 : ch.isDigit = true ∨ ch = '-' := by simpa using hmem.2
          rcases h2 with h | h
          · exact h
          · exact absurd h (hs ch hmem.1)
        obtain ⟨a, as, hds⟩ : ∃ a as, (cleanVal s).data = a :: as := by
          cases hds : (cleanVal s).data with
          | nil => exact absurd ((str_eq_empty_iff _).mpr hds) h1
          | cons a as => exact ⟨a, as, rfl⟩
        have hna : a ≠ '-' := by
          have := hd a (by rw [hds]; exact List.mem_cons_self a as)
          intro hcontra
          rw [hcontra] at this
          exact absurd this (by decide)
        have hall : (cleanVal s).data.all (fun c => c.isDigit) = true :=
          List.all_eq_true.mpr hd
        have hpy : pyInt? (cleanVal s) = some ((natOfDigits (cleanVal s).data : Int)) := by
          unfold pyInt?
          rw [hds] at hall ⊢
          simp [hna, hall]
        simp [safe_int, h0, h1, hpy]
  · by_cases h0 : s = ""
    · simp [safe_int, h0]
    · by_cases h1 : cleanVal s = ""
      · simp [safe_int, h0, h1]
      · simp [safe_int, h0, h1, hp]
  · intro B name raw bi eff cid dm ex rlh t c hc
    by_cases hn : name = ""
    · simp [scrape_card, hn] at hc
    · simp [scrape_card, hn] at hc
      rw [← hc]
      exact ⟨rfl, rfl, rfl⟩

theorem C9_safe_int_amended_witness :
    (∀ ch ∈ ("Lv.4" : String).data, ch ≠ '-') ∧ 0 ≤ safe_int "Lv.4" :=
  ⟨by decide, C9_safe_int_amended.1 "Lv.4" (by decide)⟩

/-! ## Load path (C8) -/

theorem mem_assocSet {α : Type} (db : List (String × α)) (k0 : String) (v0 : α)
    (k : String) (v : α) (h : (k, v) ∈ assocSet db k0 v0) :
    (k, v) ∈ db ∨ (k = k0 ∧ v = v0) := by
  induction db with
  | nil =>
      simp [assocSet] at h
      exact Or.inr h
  | cons p rest ih =>
      obtain ⟨k', v'⟩ := p
      by_cases hk : k' = k0
      · simp only [assocSet, if_pos hk] at h
        rcases List.mem_cons.mp h with h2 | h2
        · simp at h2
          exact Or.inr h2
        · exact Or.inl (List.mem_cons_of_mem _ h2)
      · simp only [assocSet, if_neg hk] at h
        rcases List.mem_cons.mp h with h2 | h2
        · exact Or.inl (by simp [h2])
        · rcases ih h2 with h3 | h3
          · exact Or.inl (List.mem_cons_of_mem _ h3)
          · exact Or.inr h3

theorem mem_keys_assocSet {α : Type} (db : List (String × α)) (k0 k : String) (v0 : α) :
    k ∈ (assocSet db k0 v0).map Prod.fst ↔ k ∈ db.map Prod.fst ∨ k = k0 := by
  induction db with
  | nil => simp [assocSet]
  | cons p rest ih =>
      obtain ⟨k', v'⟩ := p
      by_cases hk : k' = k0
      · subst hk
        simp [assocSet]
        tauto
      · simp only [assocSet, if_neg hk, List.map_cons, List.mem_cons, ih]
        tauto

theorem loadRecs_aux (l : List JRec) :
    ∀ (acc : List (String × JRec)) (k : String) (r : JRec),
      (k, r) ∈ l.foldl loadStep acc →
      (k, r) ∈ acc ∨ (r ∈ l ∧ loadKey r = some k ∧ k ≠ "") := by
  induction l with
  | nil =>
      intro acc k r h
      exact Or.inl (by simpa using h)
  | cons a as ih =>
      intro acc k r h
      rw [List.foldl_cons] at h
      rcases ih (loadStep acc a) k r h with h2 | h2
      · unfold loadStep at h2
        cases hka : loadKey a with
        | none => rw [hka] at h2; exact Or.inl h2
        | some ka =>
            rw [hka] at h2
            dsimp only [] at h2
            by_cases hke : ka = ""
            · rw [if_neg (fun hh => hh hke)] at h2
              exact Or.inl h2
            · rw [if_pos hke] at h2
              rcases mem_assocSet acc ka a k r h2 with h3 | h3
              · exact Or.inl h3
              · refine Or.inr ⟨?_, ?_, ?_⟩
                · rw [h3.2]; exact List.mem_cons_self a as
                · rw [h3.2, hka, h3.1]
                · rw [h3.1]; exact hke
      · exact Or.inr ⟨List.mem_cons_of_mem a h2.1, h2.2.1, h2.2.2⟩

theorem keys_foldl_mono (l : List JRec) :
    ∀ (acc : List (String × JRec)) (k : String),
      k ∈ acc.map Prod.fst → k ∈ (l.foldl loadStep acc).map Prod.fst := by
  induction l with
  | nil => intro acc k h; simpa using h
  | cons a as ih =>
      intro acc k h
      rw [List.foldl_cons]
      apply ih
      unfold loadStep
      cases hka : loadKey a with
      | none => exact h
      | some ka =>
          dsimp only []
          by_cases hke : ka = ""
          · rw [if_neg (fun hh => hh hke)]; exact h
          · rw [if_pos hke]
            exact (mem_keys_assocSet acc ka k a).mpr (Or.inl h)

theorem loadRecs_key_present (l : List JRec) :
    ∀ (acc : List (String × JRec)) (r : JRec) (k : String),
      r ∈ l → loadKey r = some k → k ≠ "" →
      k ∈ (l.foldl loadStep acc).map Prod.fst := by
  induction l with
  | nil => intro acc r k h; simp at h
  | cons a as ih =>
      intro acc r k hm hk hne
      rw [List.foldl_cons]
      rcases List.mem_cons.mp hm with h | h
      · apply keys_foldl_mono
        unfold loadStep
        rw [← h, hk]
        dsimp only []
        rw [if_pos hne]
        exact (mem_keys_assocSet acc k k r).mpr (Or.inr rfl)
      · exact ih (loadStep acc a) r k h hk hne

/-- C8 counterexample: a persisted record without an `id` field but with a
`cardNo` field is not dropped — the load path keys it by `cardNo`. -/
theorem C8_counterexample :
    loadRecs [jrecC8] = [("ST01-001", jrecC8)] ∧ jrecC8.id = none := by decide

/-- C8 amended: the load path indexes records by `id`, falling back to
`cardNo` when the `id` key is absent; a record whose effective key is
absent (or empty, hence falsy) is silently dropped, and every record
with a truthy effective key is indexed under it. -/
theorem C8_load_amended (l : List JRec) :
    (∀ k r, (k, r) ∈ loadRecs l → r ∈ l ∧ loadKey r = some k ∧ k ≠ "")
    ∧ (∀ r, r ∈ l → loadKey r = none → ∀ k, (k, r) ∉ loadRecs l)
    ∧ (∀ r, r ∈ l → ∀ k, loadKey r = some k → k ≠ "" →
        k ∈ (loadRecs l).map Prod.fst) := by
  refine ⟨fun k r h => ?_, fun r hm hk k h => ?_, fun r hm k hk hne => ?_⟩
  · rcases loadRecs_aux l [] k r h with h2 | h2
    · simp at h2
    · exact h2
  · rcases loadRecs_aux l [] k r h with h2 | h2
    · simp at h2
    · rw [hk] at h2
      exact absurd h2.2.1 (by simp)
  · exact loadRecs_key_present l [] r k hm hk hne

theorem C8_load_amended_witness :
    jrecC8 ∈ [jrecC8] ∧ loadKey jrecC8 = some "ST01-001"
    ∧ "ST01-001" ∈ (loadRecs [jrecC8]).map Prod.fst :=
  ⟨by decide, by decide,
    (C8_load_amended [jrecC8]).2.2 jrecC8 (by decide) "ST01-001" (by decide) (by decide)⟩

/-! ## Snapshot store (C10) -/

theorem save_db_nonempty (db : DB) (f : Option (List Card))
    (hf : ∀ l', f = some l' → l' ≠ []) :
    ∀ l', save_db db f = some l' → l' ≠ [] := by
  intro l' h
  unfold save_db at h
  by_cases hd : db.length > 0
  · rw [if_pos hd] at h
    injection h with h2
    intro hl
    rw [← h2] at hl
    have : db = [] := by simpa [dbValues] using hl
    rw [this] at hd
    exact absurd hd (by simp)
  · rw [if_neg hd] at h
    exact hf l' h

theorem chkSave_file_nonempty (i : Nat) (s : ScanSt)
    (hf : ∀ l', s.file = some l' → l' ≠ []) :
    ∀ l', (chkSave i s).file = some l' → l' ≠ [] := by
  unfold chkSave
  by_cases h2 : i % 200 = 0
  · rw [if_pos h2]
    exact save_db_nonempty s.db s.file hf
  · rw [if_neg h2]
    exact hf

theorem chkSave_db (i : Nat) (s : ScanSt) : (chkSave i s).db = s.db := by
  unfold chkSave
  split <;> rfl

theorem scanAux_file_nonempty (B : Backend) (pages : String → Page)
    (dm : List (String × DeckQ)) (t : Nat) (code : String) :
    ∀ fuel i streak s, (∀ l', s.file = some l' → l' ≠ []) →
      ∀ l', (scanAux B pages dm t code i fuel streak s).1.file = some l' → l' ≠ [] := by
  intro fuel
  induction fuel with
  | zero => intro i streak s hf; exact hf
  | succ n ih =>
      intro i streak s hf l' hEq
      simp only [scanAux] at hEq
      split at hEq
      · exact ih _ _ _ hf l' hEq
      · split at hEq
        · refine ih _ _ _ ?_ l' hEq
          exact chkSave_file_nonempty _ _ hf
        · split at hEq
          · exact hf l' hEq
          · refine ih _ _ _ ?_ l' hEq
            exact chkSave_file_nonempty _ _ hf

theorem scanSets_file_nonempty (B : Backend) (pages : String → Page)
    (dm : List (String × DeckQ)) (t : Nat) :
    ∀ sets s, (∀ l', s.file = some l' → l' ≠ []) →
      ∀ l', (scanSets B pages dm t sets s).1.file = some l' → l' ≠ [] := by
  intro sets
  induction sets with
  | nil => intro s hf; exact hf
  | cons cl rest ih =>
      intro s hf
      obtain ⟨code, limit⟩ := cl
      simp only [scanSets, scanSet]
      exact ih _ (scanAux_file_nonempty B pages dm t code limit 1 0 s hf)

/-- C10: `save_db` on an empty snapshot leaves the persisted file
untouched; consequently a run never replaces a non-empty persisted
snapshot by an empty one, and when the purge removes every record the
final save is a no-op, leaving whatever the scan last persisted. -/
theorem C10_empty_save_noop :
    (∀ file, save_db [] file = file)
    ∧ (∀ B pages dm sets t l l', l ≠ [] →
        run_update B pages dm sets t (some l) = some l' → l' ≠ [])
    ∧ (∀ B pages dm sets t file0,
        purge_bad_data (scanSets B pages dm t sets
          { db := loadDb file0, rlh := false, file := file0 }).1.db = [] →
        run_update B pages dm sets t file0 =
          (scanSets B pages dm t sets
            { db := loadDb file0, rlh := false, file := file0 }).1.file) := by
  refine ⟨fun file => rfl,
    fun B pages dm sets t l l' hne h => ?_,
    fun B pages dm sets t file0 hp => ?_⟩
  · unfold run_update at h
    refine save_db_nonempty _ _ ?_ l' h
    apply scanSets_file_nonempty
    intro l2 h2
    have h3 : l = l2 := by injection h2
    rw [← h3]
    exact hne
  · unfold run_update
    dsimp only []
    rw [hp]
    rfl

theorem C10_empty_save_noop_witness :
    run_update bFail (fun _ => Page.missing) [] [("ST01", 2)] 0 (some [cardC3])
      = some [cardC3]
    ∧ ([cardC3] : List Card) ≠ [] :=
  ⟨by decide,
    C10_empty_save_noop.2.1 bFail (fun _ => Page.missing) [] [("ST01", 2)] 0
      [cardC3] [cardC3] (by decide) (by decide)⟩

/-! ## Miss-streak termination (C2) -/

/-- C2 counterexample: on the synthetic namespace with hits at 1-5 and
misses after, the item-level scan does NOT perform 8 probe calls. -/
theorem C2_counterexample :
    (scanSet bFail pagesC2 [] 0 "ST01" 200
      { db := [], rlh := false, file := none }).2.1 ≠ 8 := by decide

/-- C2 amended: the item loop breaks only when the consecutive-miss
counter exceeds `MAX_MISSES = 3` (on the 4th consecutive miss), so on
the synthetic namespace with hits at 1-5 it performs exactly 9 probe
calls (5 hits + 4 misses) and stores exactly the records 001-005
(upper bound 5). -/
theorem C2_miss_streak_amended :
    (scanSet bFail pagesC2 [] 0 "ST01" 200
      { db := [], rlh := false, file := none }).2.1 = 9
    ∧ ((scanSet bFail pagesC2 [] 0 "ST01" 200
        { db := [], rlh := false, file := none }).1.db.map Prod.fst)
      = ["ST01-001", "ST01-002", "ST01-003", "ST01-004", "ST01-005"] := by decide

/-! ## Unchanged record handling (C4) -/

/-- C4 counterexample: a fetched record that compares structurally
unchanged (ignoring `last_updated`) leaves the stored record completely
untouched — its `last_updated` (5) is NOT refreshed to the scan time
(99). -/
theorem C4_counterexample :
    (scanAux bFail pagesC4 dmC4 99 "ST01" 1 1 0
        { db := [("ST01-001", cardC4)], rlh := false, file := none }).1.db
      = [("ST01-001", cardC4)]
    ∧ cardC4.last_updated = 5
    ∧ (scanAux bFail pagesC4 dmC4 99 "ST01" 1 1 0
        { db := [("ST01-001", cardC4)], rlh := false, file := none }).1.db
      ≠ [("ST01-001", { cardC4 with last_updated := 99 })] := by decide

/-- C4 amended: when the fetch happens and the fetched record is
structurally unchanged up to `last_updated`, the reconciler step leaves
the snapshot exactly as it was: the stored record keeps its old
timestamp and no other record changes. -/
theorem C4_unchanged_frame (B : Backend) (pages : String → Page)
    (dm : List (String × DeckQ)) (t : Nat) (code : String) (i streak : Nat)
    (s : ScanSt) (old nc : Card)
    (hex : dbGet s.db (mkId code i) = some old)
    (hforce : old.deck_quantities ≠ lookupDq dm (mkId code i))
    (hsc : (scrape_card B (pages (mkId code i)) (mkId code i) dm (some old) s.rlh t).1
      = some nc)
    (hunch : has_changed (some old) nc = false) :
    (scanAux B pages dm t code i 1 streak s).1.db = s.db := by
  have hfb : decide (old.deck_quantities ≠ lookupDq dm (mkId code i)) = true :=
    decide_eq_true hforce
  simp only [scanAux, hex, hfb, Option.isSome_some, FULL_CHECK, Bool.not_true,
    Bool.and_false, Bool.false_and, Bool.not_false, Bool.true_and, Bool.and_true,
    Bool.false_eq_true, if_false, hsc, hunch, if_neg]
  simp [chkSave_db, hunch]

theorem C4_unchanged_frame_witness :
    (scanAux bFail pagesC4 dmC4 99 "ST01" 1 1 2
        { db := [("ST01-001", cardC4)], rlh := false, file := none }).1.db
      = [("ST01-001", cardC4)] :=
  C4_unchanged_frame bFail pagesC4 dmC4 99 "ST01" 1 2
    { db := [("ST01-001", cardC4)], rlh := false, file := none } cardC4 cardC4new
    (by decide) (by decide) (by decide) (by decide)

/-! ## Set discovery (C7) -/

theorem discoverAux_limits (pages : String → Page) (pre : String) :
    ∀ fuel i streak, ∀ e ∈ discoverAux pages pre i fuel streak,
      e.2 = 200 ∧ ∃ j, i ≤ j ∧ j < i + fuel ∧ e.1 = mkSetCode pre j := by
  intro fuel
  induction fuel with
  | zero => intro i streak e h; simp [discoverAux] at h
  | succ n ih =>
      intro i streak e h
      simp only [discoverAux] at h
      split at h
      · rcases List.mem_cons.mp h with h2 | h2
        · rw [h2]
          exact ⟨rfl, i, le_refl i, by omega, rfl⟩
        · obtain ⟨h200, j, hj1, hj2, hj3⟩ := ih (i + 1) 0 e h2
          exact ⟨h200, j, by omega, by omega, hj3⟩
      · split at h
        · simp at h
        · obtain ⟨h200, j, hj1, hj2, hj3⟩ := ih (i + 1) (streak + 1) e h
          exact ⟨h200, j, by omega, by omega, hj3⟩

/-- C7 counterexample: under a remote where ST01 (starter class) and
EXB01 (booster class) are both live, `discover_sets` assigns the very
same limit 200 to both — there is no larger bound for the booster class
and smaller bound for the rest. -/
theorem C7_counterexample :
    discover_sets pagesC7 = [("ST01", 200), ("EXB01", 200)] := by decide

/-- C7 amended: every live set code is paired with the one fixed limit
200 regardless of its prefix class, output order is prefix declaration
order (the flatMap over `KNOWN_SET_PREFIXES`), and a hardcoded fallback
`[("ST01", 30)]` is returned when no prefix is live. -/
theorem C7_limits_amended (pages : String → Page) :
    (discover_sets pages
        = KNOWN_SET_PREFIXES.flatMap (fun pre => discoverAux pages pre 1 9 0)
      ∨ discover_sets pages = [("ST01", 30)])
    ∧ ∀ e ∈ KNOWN_SET_PREFIXES.flatMap (fun pre => discoverAux pages pre 1 9 0),
        e.2 = 200 ∧ ∃ pre ∈ KNOWN_SET_PREFIXES, ∃ j, 1 ≤ j ∧ j ≤ 9 ∧
          e.1 = mkSetCode pre j := by
  constructor
  · unfold discover_sets
    by_cases h : (KNOWN_SET_PREFIXES.flatMap (fun pre => discoverAux pages pre 1 9 0)).isEmpty
    · rw [if_pos h]
      right
      rfl
    · rw [if_neg h]
      left
      rfl
  · intro e he
    rw [List.mem_flatMap] at he
    obtain ⟨pre, hpre, he2⟩ := he
    obtain ⟨h200, j, hj1, hj2, hj3⟩ := discoverAux_limits pages pre 9 1 0 e he2
    exact ⟨h200, pre, hpre, j, hj1, by omega, hj3⟩

theorem C7_limits_amended_witness :
    ("EXB01", (200 : Nat)).2 = 200 :=
  ((C7_limits_amended pagesC7).2 ("EXB01", 200) (by decide)).1

/-! ## Idempotence (C1): snapshot-map lemmas -/

theorem dbGet_eq_none (db : DB) (k : String) (h : k ∉ db.map Prod.fst) :
    dbGet db k = none := by
  induction db with
  | nil => rfl
  | cons kc rest ih =>
      obtain ⟨k', v'⟩ := kc
      simp only [List.map_cons, List.mem_cons] at h
      push_neg at h
      unfold dbGet
      rw [List.find?]
      have : (decide (k' = k)) = false := by
        simp only [decide_eq_false_iff_not]
        exact fun hh => h.1 hh.symm
      rw [this]
      have := ih h.2
      unfold dbGet at this
      exact this

theorem dbGet_append_left (d1 d2 : DB) (k : String) (v : Card)
    (h : dbGet d1 k = some v) : dbGet (d1 ++ d2) k = some v := by
  induction d1 with
  | nil => simp [dbGet, List.find?] at h
  | cons kc rest ih =>
      obtain ⟨k', v'⟩ := kc
      unfold dbGet at h ⊢
      rw [List.cons_append, List.find?]
      rw [List.find?] at h
      by_cases hk : (decide (k' = k)) = true
      · rw [hk] at h ⊢
        exact h
      · rw [Bool.not_eq_true] at hk
        rw [hk] at h ⊢
        have := ih h
        unfold dbGet at this
        exact this

theorem dbGet_append_right (d1 d2 : DB) (k : String)
    (h : k ∉ d1.map Prod.fst) : dbGet (d1 ++ d2) k = dbGet d2 k := by
  induction d1 with
  | nil => rfl
  | cons kc rest ih =>
      obtain ⟨k', v'⟩ := kc
      simp only [List.map_cons, List.mem_cons] at h
      push_neg at h
      unfold dbGet
      rw [List.cons_append, List.find?]
      have : (decide (k' = k)) = false := by
        simp only [decide_eq_false_iff_not]
        exact fun hh => h.1 hh.symm
      rw [this]
      have := ih h.2
      unfold dbGet at this
      exact this

theorem dbSet_fresh (db : DB) (k : String) (v : Card)
    (h : k ∉ db.map Prod.fst) : dbSet db k v = db ++ [(k, v)] := by
  induction db with
  | nil => rfl
  | cons kc rest ih =>
      obtain ⟨k', v'⟩ := kc
      simp only [List.map_cons, List.mem_cons] at h
      push_neg at h
      unfold dbSet
      rw [if_neg (fun hh => h.1 hh.symm), List.cons_append, ih h.2]

theorem keys_lAssoc (l : List Card) :
    (lAssocOf l).map Prod.fst = l.map Card.id := by
  simp [lAssocOf, List.map_map]

theorem dbValues_lAssoc (l : List Card) : dbValues (lAssocOf l) = l := by
  induction l with
  | nil => rfl
  | cons a rest ih =>
      simp only [dbValues, lAssocOf, List.map_cons] at ih ⊢
      rw [ih]

theorem dbGet_lAssoc_mem (l : List Card) (k : String)
    (h : k ∈ l.map Card.id) :
    ∃ c, c ∈ l ∧ c.id = k ∧ dbGet (lAssocOf l) k = some c := by
  induction l with
  | nil => simp at h
  | cons a rest ih =>
      by_cases ha : a.id = k
      · refine ⟨a, List.mem_cons_self a rest, ha, ?_⟩
        unfold lAssocOf dbGet
        rw [List.map_cons, List.find?]
        rw [show (decide (a.id = k)) = true from decide_eq_true ha]
      · simp only [List.map_cons, List.mem_cons] at h
        rcases h with h | h
        · exact absurd h.symm ha
        · obtain ⟨c, hc1, hc2, hc3⟩ := ih h
          refine ⟨c, List.mem_cons_of_mem a hc1, hc2, ?_⟩
          unfold lAssocOf dbGet
          rw [List.map_cons, List.find?]
          rw [show (decide (a.id = k)) = false from decide_eq_false ha]
          unfold lAssocOf dbGet at hc3
          exact hc3

theorem dbExtends_refl (d : DB) : dbExtends d d := ⟨[], by simp⟩

theorem dbExtends_trans {d1 d2 d3 : DB} (h1 : dbExtends d1 d2)
    (h2 : dbExtends d2 d3) : dbExtends d1 d3 := by
  obtain ⟨x, hx⟩ := h1
  obtain ⟨y, hy⟩ := h2
  exact ⟨x ++ y, by rw [hy, hx, List.append_assoc]⟩

theorem dbExtends_append (d x : DB) : dbExtends d (d ++ x) := ⟨x, rfl⟩

theorem dbExtends_nil_right {d : DB} (h : dbExtends d []) : d = [] := by
  obtain ⟨x, hx⟩ := h
  exact (List.append_eq_nil.mp hx.symm).1

theorem dbExtends_total {a b c : DB} (ha : dbExtends a c) (hb : dbExtends b c) :
    dbExtends a b ∨ dbExtends b a := by
  obtain ⟨x, hx⟩ := ha
  obtain ⟨y, hy⟩ := hb
  rcases Nat.le_total a.length b.length with hl | hl
  · left
    refine ⟨(b.drop a.length), ?_⟩
    have hab : a = b.take a.length := by
      have h1 : c.take a.length = a := by
        rw [hx, List.take_left]
      have h2 : c.take a.length = (b ++ y).take a.length := by rw [← hy, hx]
      rw [List.take_append_of_le_length hl] at h2
      rw [← h2]
      exact h1.symm
    calc b = b.take a.length ++ b.drop a.length := (List.take_append_drop _ b).symm
    _ = a ++ b.drop a.length := by rw [← hab]
  · right
    refine ⟨(a.drop b.length), ?_⟩
    have hba : b = a.take b.length := by
      have h1 : c.take b.length = b := by
        rw [hy, List.take_left]
      have h2 : c.take b.length = (a ++ x).take b.length := by rw [← hx, hy]
      rw [List.take_append_of_le_length hl] at h2
      rw [← h2]
      exact h1.symm
    calc a = a.take b.length ++ a.drop b.length := (List.take_append_drop _ a).symm
    _ = b ++ a.drop b.length := by rw [← hba]

theorem dbExtends_keys_subset {d1 d2 : DB} (h : dbExtends d1 d2) :
    d1.map Prod.fst ⊆ d2.map Prod.fst := by
  obtain ⟨x, hx⟩ := h
  rw [hx, List.map_append]
  exact List.subset_append_left _ _

/-! ## Idempotence (C1): scrape and page lemmas -/

theorem scrape_none_iff (B : Backend) (p : Page) (cid : String)
    (dm : List (String × DeckQ)) (ex : Option Card) (rlh : Bool) (t : Nat) :
    (scrape_card B p cid dm ex rlh t).1 = none ↔ pagePresent p = false := by
  cases p with
  | missing => simp [scrape_card, pagePresent]
  | found name raw bi eff =>
      by_cases hn : name = ""
      · simp [scrape_card, pagePresent, hn]
      · simp [scrape_card, pagePresent, hn]

theorem scrape_present_some (B : Backend) (p : Page) (cid : String)
    (dm : List (String × DeckQ)) (ex : Option Card) (rlh : Bool) (t : Nat)
    (h : pagePresent p = true) :
    ∃ c, (scrape_card B p cid dm ex rlh t).1 = some c := by
  cases hsc : (scrape_card B p cid dm ex rlh t).1 with
  | none =>
      rw [scrape_none_iff] at hsc
      rw [h] at hsc
      cases hsc
  | some c => exact ⟨c, rfl⟩

theorem scrape_core (B : Backend) (p : Page) (cid : String)
    (dm : List (String × DeckQ)) (ex : Option Card) (rlh : Bool) (t : Nat)
    (c : Card) (h : (scrape_card B p cid dm ex rlh t).1 = some c) :
    c.id = cid ∧ coreMatch c p ∧ c.deck_quantities = lookupDq dm cid := by
  cases p with
  | missing => simp [scrape_card] at h
  | found name raw bi eff =>
      by_cases hn : name = ""
      · simp [scrape_card, hn] at h
      · simp [scrape_card, hn] at h
        rw [← h]
        exact ⟨rfl, ⟨rfl, rfl, rfl, rfl⟩, rfl⟩

theorem imageUrlOf_ne (cid : String) : imageUrlOf cid ≠ "" := by
  intro h
  rw [str_eq_empty_iff, imageUrlOf] at h
  rw [String.data_append, String.data_append] at h
  have h2 := (List.append_eq_nil.mp h).1
  have h3 := (List.append_eq_nil.mp h2).1
  exact absurd h3 (by decide)

theorem upload_ne (B : Backend) (rlh : Bool) (cid : String)
    (hB : ∀ u k url, B u k = UploadRes.success url → url ≠ "") :
    (upload_image_to_cloudinary B rlh (imageUrlOf cid) cid).1 ≠ "" := by
  unfold upload_image_to_cloudinary
  by_cases h : rlh
  · rw [if_pos h]
    exact imageUrlOf_ne cid
  · rw [if_neg h]
    cases hb : B (imageUrlOf cid) cid with
    | success u => exact hB _ _ _ hb
    | rateLimited => exact imageUrlOf_ne cid
    | failed => exact imageUrlOf_ne cid

theorem scrape_image_ne (B : Backend) (p : Page) (cid : String)
    (dm : List (String × DeckQ)) (rlh : Bool) (t : Nat) (c : Card)
    (hB : ∀ u k url, B u k = UploadRes.success url → url ≠ "")
    (h : (scrape_card B p cid dm none rlh t).1 = some c) : c.image_url ≠ "" := by
  cases p with
  | missing => simp [scrape_card] at h
  | found name raw bi eff =>
      by_cases hn : name = ""
      · simp [scrape_card, hn] at h
      · simp [scrape_card, hn] at h
        rw [← h]
        show (imageDecision B none cid rlh).1 ≠ ""
        unfold imageDecision
        exact upload_ne B rlh cid hB

theorem badCard_eq_pageBad (c : Card) (p : Page) (hc : coreMatch c p)
    (hi : c.image_url ≠ "") : badCard c = pageBad p := by
  cases p with
  | missing => exact absurd hc (by simp [coreMatch])
  | found name raw bi eff =>
      obtain ⟨h1, h2, h3, h4⟩ := hc
      unfold badCard pageBad
      rw [h1, h2, h3, h4]
      rw [show (decide (c.image_url = "")) = false from decide_eq_false hi]
      simp

/-! ## Idempotence (C1): checkpoint and saveFold lemmas -/

theorem chkSave_file_eq (i : Nat) (s : ScanSt) :
    (chkSave i s).file = saveFold (chkLog i s.db) s.file := by
  unfold chkSave chkLog saveFold
  by_cases h : i % 200 = 0
  · rw [if_pos h, if_pos h]
    rfl
  · rw [if_neg h, if_neg h]
    rfl

theorem saveFold_append (g1 g2 : List DB) (f : Option (List Card)) :
    saveFold (g1 ++ g2) f = saveFold g2 (saveFold g1 f) := by
  unfold saveFold
  rw [List.foldl_append]

theorem saveFold_nil (f : Option (List Card)) : saveFold [] f = f := rfl

/-! ## Idempotence (C1): RRel lemmas -/

theorem RRel_nil (lIds : List String) : RRel lIds [] [] := by
  unfold RRel
  exact List.Forall₂.nil

theorem forall₂_fst (la lb : DB)
    (h : List.Forall₂ (fun kc1 kc2 => kc2.1 = kc1.1 ∧ badCard kc2.2 = badCard kc1.2) la lb) :
    lb.map Prod.fst = la.map Prod.fst := by
  induction h with
  | nil => rfl
  | cons h1 h2 ih =>
      simp only [List.map_cons, ih, h1.1]

theorem RRel_fst (lIds : List String) (d R : DB) (h : RRel lIds d R) :
    R.map Prod.fst = (d.filter (fun kc => decide (kc.1 ∉ lIds))).map Prod.fst := by
  unfold RRel at h
  exact forall₂_fst _ _ h

theorem RRel_keys_subset (lIds : List String) (d R : DB) (h : RRel lIds d R) :
    R.map Prod.fst ⊆ d.map Prod.fst := by
  rw [RRel_fst lIds d R h]
  intro k hk
  rw [List.mem_map] at hk
  obtain ⟨kc, hkc1, hkc2⟩ := hk
  exact hkc2 ▸ List.mem_map_of_mem Prod.fst (List.mem_of_mem_filter hkc1)

theorem RRel_append_skip (lIds : List String) (d R : DB) (kc : String × Card)
    (hmem : kc.1 ∈ lIds) (h : RRel lIds d R) : RRel lIds (d ++ [kc]) R := by
  unfold RRel at h ⊢
  rw [List.filter_append]
  have h2 : List.filter (fun kc => decide (kc.1 ∉ lIds)) [kc] = [] := by
    simp [hmem]
  rw [h2, List.append_nil]
  exact h

theorem RRel_append_add (lIds : List String) (d R : DB) (kc1 kc2 : String × Card)
    (hmem : kc1.1 ∉ lIds) (hfst : kc2.1 = kc1.1)
    (hbad : badCard kc2.2 = badCard kc1.2) (h : RRel lIds d R) :
    RRel lIds (d ++ [kc1]) (R ++ [kc2]) := by
  unfold RRel at h ⊢
  rw [List.filter_append]
  have h2 : List.filter (fun kc => decide (kc.1 ∉ lIds)) [kc1] = [kc1] := by
    simp [hmem]
  rw [h2]
  exact List.rel_append h (List.Forall₂.cons ⟨hfst, hbad⟩ List.Forall₂.nil)

theorem forall₂_bad (la lb : DB)
    (h : List.Forall₂ (fun kc1 kc2 => kc2.1 = kc1.1 ∧ badCard kc2.2 = badCard kc1.2) la lb)
    (hla : ∀ kc ∈ la, badCard kc.2 = true) : ∀ kc ∈ lb, badCard kc.2 = true := by
  induction h with
  | nil => intro kc h2; simp at h2
  | cons h1 h2 ih =>
      rename_i a b l1 l2
      intro kc h3
      rcases List.mem_cons.mp h3 with h4 | h4
      · rw [h4, h1.2]
        exact hla a (List.mem_cons_self a l1)
      · exact ih (fun kc hk => hla kc (List.mem_cons_of_mem a hk)) kc h4

theorem RRel_bad (lIds : List String) (d R : DB) (h : RRel lIds d R)
    (hd : ∀ kc ∈ d, kc.1 ∉ lIds → badCard kc.2 = true) :
    ∀ kc ∈ R, badCard kc.2 = true := by
  unfold RRel at h
  refine forall₂_bad _ _ h ?_
  intro kc hkc
  have h1 := List.mem_of_mem_filter hkc
  have h2 := List.of_mem_filter hkc
  simp only [decide_eq_true_eq] at h2
  exact hd kc h1 h2

/-! ## Idempotence (C1): purge lemmas -/

theorem purge_append (d1 d2 : DB) :
    purge_bad_data (d1 ++ d2) = purge_bad_data d1 ++ purge_bad_data d2 := by
  rw [purge_eq_filter, purge_eq_filter, purge_eq_filter, List.filter_append]

theorem purge_all_bad (d : DB) (h : ∀ kc ∈ d, badCard kc.2 = true) :
    purge_bad_data d = [] := by
  rw [purge_eq_filter]
  rw [List.filter_eq_nil_iff]
  intro kc hkc
  simp [h kc hkc]

theorem purge_all_good (d : DB) (h : ∀ kc ∈ d, badCard kc.2 = false) :
    purge_bad_data d = d := by
  rw [purge_eq_filter]
  apply List.filter_eq_self.mpr
  intro kc hkc
  simp [h kc hkc]

theorem purge_empty_all_bad (d : DB) (h : purge_bad_data d = []) :
    ∀ kc ∈ d, badCard kc.2 = true := by
  rw [purge_eq_filter] at h
  have h2 := List.filter_eq_nil_iff.mp h
  intro kc hkc
  have h3 := h2 kc hkc
  simpa using h3

/-! ## Idempotence (C1): load path of program-written snapshots -/

theorem loadDb_eq (l : List Card) (hids : ∀ c ∈ l, c.id ≠ "")
    (hnd : (l.map Card.id).Nodup) : loadDb (some l) = lAssocOf l := by
  suffices h : ∀ (m : List Card) (acc : DB), (∀ c ∈ m, c.id ≠ "") →
      (m.map Card.id).Nodup → (∀ c ∈ m, c.id ∉ acc.map Prod.fst) →
      m.foldl (fun db c => if c.id ≠ "" then dbSet db c.id c else db) acc
        = acc ++ lAssocOf m by
    have h2 := h l [] hids hnd (by simp)
    simpa [loadDb] using h2
  intro m
  induction m with
  | nil => intro acc h1 h2 h3; simp [lAssocOf]
  | cons a rest ih =>
      intro acc h1 h2 h3
      rw [List.foldl_cons]
      rw [if_pos (h1 a (List.mem_cons_self a rest))]
      rw [dbSet_fresh acc a.id a (h3 a (List.mem_cons_self a rest))]
      rw [ih (acc ++ [(a.id, a)])
        (fun c hc => h1 c (List.mem_cons_of_mem a hc))
        (by
          rw [List.map_cons] at h2
          exact (List.nodup_cons.mp h2).2)
        (by
          intro c hc
          rw [List.map_append]
          intro hmem
          rcases List.mem_append.mp hmem with hm | hm
          · exact h3 c (List.mem_cons_of_mem a hc) hm
          · rw [List.map_cons] at h2
            have := (List.nodup_cons.mp h2).1
            simp only [List.map_cons, List.map_nil, List.mem_cons,
              List.not_mem_nil, or_false] at hm
            exact this (hm ▸ List.mem_map_of_mem Card.id hc))]
      rw [List.append_assoc]
      rfl

/-! ## Idempotence (C1): scanAux single-step characterizations -/

theorem scanAux_zero (B : Backend) (pages : String → Page)
    (dm : List (String × DeckQ)) (t : Nat) (code : String) (i streak : Nat)
    (s : ScanSt) : scanAux B pages dm t code i 0 streak s = (s, 0, []) := rfl

/-- Fast path: an existing record whose deck dict matches the deck map is
skipped (streak reset, no fetch, no checkpoint). -/
theorem scanAux_step_fast (B : Backend) (pages : String → Page)
    (dm : List (String × DeckQ)) (t : Nat) (code : String) (i fuel streak : Nat)
    (s : ScanSt) (ec : Card)
    (hex : dbGet s.db (mkId code i) = some ec)
    (hforce : ec.deck_quantities = lookupDq dm (mkId code i)) :
    scanAux B pages dm t code i (fuel + 1) streak s
      = scanAux B pages dm t code (i + 1) fuel 0 s := by
  simp only [scanAux, hex, FULL_CHECK, Bool.not_false, Option.isSome_some,
    Bool.true_and, decide_eq_false (not_not_intro hforce), Bool.not_false,
    Bool.and_true, if_true]

/-- Hit: no usable existing record, the page yields a record; it is stored
(from-`none` `has_changed` is true), the streak resets and the checkpoint
may fire. -/
theorem scanAux_step_hit_st (B : Backend) (pages : String → Page)
    (dm : List (String × DeckQ)) (t : Nat) (code : String) (i fuel streak : Nat)
    (s : ScanSt) (nc : Card)
    (hex : dbGet s.db (mkId code i) = none)
    (hsc : (scrape_card B (pages (mkId code i)) (mkId code i) dm none s.rlh t).1
      = some nc) :
    (scanAux B pages dm t code i (fuel + 1) streak s).1
      = (scanAux B pages dm t code (i + 1) fuel 0
          (chkSave i ⟨dbSet s.db (mkId code i) nc,
            (scrape_card B (pages (mkId code i)) (mkId code i) dm none s.rlh t).2.1,
            s.file⟩)).1 := by
  simp only [scanAux, hex, FULL_CHECK, Bool.not_false, Option.isSome_none,
    Bool.true_and, Bool.and_false, Bool.false_and, Bool.false_eq_true, if_false,
    hsc, has_changed, if_true]

theorem scanAux_step_hit_log (B : Backend) (pages : String → Page)
    (dm : List (String × DeckQ)) (t : Nat) (code : String) (i fuel streak : Nat)
    (s : ScanSt) (nc : Card)
    (hex : dbGet s.db (mkId code i) = none)
    (hsc : (scrape_card B (pages (mkId code i)) (mkId code i) dm none s.rlh t).1
      = some nc) :
    (scanAux B pages dm t code i (fuel + 1) streak s).2.2
      = chkLog i (dbSet s.db (mkId code i) nc)
        ++ (scanAux B pages dm t code (i + 1) fuel 0
          (chkSave i ⟨dbSet s.db (mkId code i) nc,
            (scrape_card B (pages (mkId code i)) (mkId code i) dm none s.rlh t).2.1,
            s.file⟩)).2.2 := by
  simp only [scanAux, hex, FULL_CHECK, Bool.not_false, Option.isSome_none,
    Bool.true_and, Bool.and_false, Bool.false_and, Bool.false_eq_true, if_false,
    hsc, has_changed, if_true]

/-- Miss below the break threshold: nothing stored, streak incremented,
checkpoint may fire. -/
theorem scanAux_step_miss_st (B : Backend) (pages : String → Page)
    (dm : List (String × DeckQ)) (t : Nat) (code : String) (i fuel streak : Nat)
    (s : ScanSt)
    (hex : dbGet s.db (mkId code i) = none)
    (hsc : (scrape_card B (pages (mkId code i)) (mkId code i) dm none s.rlh t).1
      = none)
    (hstreak : ¬(streak + 1 > MAX_MISSES)) :
    (scanAux B pages dm t code i (fuel + 1) streak s).1
      = (scanAux B pages dm t code (i + 1) fuel (streak + 1)
          (chkSave i ⟨s.db,
            (scrape_card B (pages (mkId code i)) (mkId code i) dm none s.rlh t).2.1,
            s.file⟩)).1 := by
  simp only [scanAux, hex, FULL_CHECK, Bool.not_false, Option.isSome_none,
    Bool.true_and, Bool.and_false, Bool.false_and, Bool.false_eq_true, if_false,
    hsc, if_neg hstreak]

theorem scanAux_step_miss_log (B : Backend) (pages : String → Page)
    (dm : List (String × DeckQ)) (t : Nat) (code : String) (i fuel streak : Nat)
    (s : ScanSt)
    (hex : dbGet s.db (mkId code i) = none)
    (hsc : (scrape_card B (pages (mkId code i)) (mkId code i) dm none s.rlh t).1
      = none)
    (hstreak : ¬(streak + 1 > MAX_MISSES)) :
    (scanAux B pages dm t code i (fuel + 1) streak s).2.2
      = chkLog i s.db
        ++ (scanAux B pages dm t code (i + 1) fuel (streak + 1)
          (chkSave i ⟨s.db,
            (scrape_card B (pages (mkId code i)) (mkId code i) dm none s.rlh t).2.1,
            s.file⟩)).2.2 := by
  simp only [scanAux, hex, FULL_CHECK, Bool.not_false, Option.isSome_none,
    Bool.true_and, Bool.and_false, Bool.false_and, Bool.false_eq_true, if_false,
    hsc, if_neg hstreak]

/-- Miss beyond the threshold: the set scan breaks, leaving the snapshot
and the file untouched and logging nothing. -/
theorem scanAux_step_break (B : Backend) (pages : String → Page)
    (dm : List (String × DeckQ)) (t : Nat) (code : String) (i fuel streak : Nat)
    (s : ScanSt)
    (hex : dbGet s.db (mkId code i) = none)
    (hsc : (scrape_card B (pages (mkId code i)) (mkId code i) dm none s.rlh t).1
      = none)
    (hstreak : streak + 1 > MAX_MISSES) :
    (scanAux B pages dm t code i (fuel + 1) streak s).1.db = s.db
    ∧ (scanAux B pages dm t code i (fuel + 1) streak s).1.file = s.file
    ∧ (scanAux B pages dm t code i (fuel + 1) streak s).2.2 = [] := by
  simp only [scanAux, hex, FULL_CHECK, Bool.not_false, Option.isSome_none,
    Bool.true_and, Bool.and_false, Bool.false_and, Bool.false_eq_true, if_false,
    hsc, if_pos hstreak]
  exact ⟨trivial, trivial, trivial⟩

theorem mkId_ne (code : String) (i : Nat) : mkId code i ≠ "" := by
  intro h
  rw [str_eq_empty_iff] at h
  unfold mkId at h
  rw [String.data_append, String.data_append] at h
  have h2 := (List.append_eq_nil.mp h).1
  have h3 := (List.append_eq_nil.mp h2).2
  exact absurd h3 (by decide)

theorem chkLog_cases (i : Nat) (db d : DB) (h : d ∈ chkLog i db) :
    d = db ∧ i % 200 = 0 := by
  unfold chkLog at h
  by_cases hf : i % 200 = 0
  · rw [if_pos hf] at h
    exact ⟨by simpa using h, hf⟩
  · rw [if_neg hf] at h
    simp at h

theorem chkLog_mem_self (i : Nat) (db : DB) (h : i % 200 = 0) :
    db ∈ chkLog i db := by
  unfold chkLog
  rw [if_pos h]
  exact List.mem_singleton_self db

theorem chkLog_pairwise (i : Nat) (db : DB) :
    List.Pairwise dbExtends (chkLog i db) := by
  unfold chkLog
  by_cases hf : i % 200 = 0
  · rw [if_pos hf]
    exact List.pairwise_singleton _ _
  · rw [if_neg hf]
    exact List.Pairwise.nil

theorem nodup_head_not_mem {α : Type} (xs ys zs : List α) (a : α)
    (h : ((xs ++ (a :: ys)) ++ zs).Nodup) : a ∉ xs := by
  intro hmem
  rcases List.nodup_append.mp h with ⟨h1, -, -⟩
  rcases List.nodup_append.mp h1 with ⟨-, -, hdisj⟩
  exact hdisj hmem (List.mem_cons_self a ys)

theorem nodup_shift {α : Type} (xs ys zs : List α) (a : α)
    (h : ((xs ++ (a :: ys)) ++ zs).Nodup) : (((xs ++ [a]) ++ ys) ++ zs).Nodup := by
  rw [List.append_assoc xs [a] ys, List.singleton_append]
  exact h

theorem nodup_drop {α : Type} (xs ys zs : List α) (a : α)
    (h : ((xs ++ (a :: ys)) ++ zs).Nodup) : ((xs ++ ys) ++ zs).Nodup := by
  refine List.Nodup.sublist ?_ h
  refine List.Sublist.append ?_ (List.Sublist.refl zs)
  exact List.Sublist.append_left (List.sublist_cons_self a ys) xs

theorem nodup_drop_mid {α : Type} (xs ys zs : List α)
    (h : ((xs ++ ys) ++ zs).Nodup) : (xs ++ zs).Nodup := by
  refine List.Nodup.sublist ?_ h
  rw [List.append_assoc]
  exact List.Sublist.append_left (List.sublist_append_right ys zs) xs

/-! ## Idempotence (C1): the central simulation lemma -/

set_option maxHeartbeats 1000000 in
theorem scanAux_sim (B : Backend) (pages : String → Page)
    (deckMap : List (String × DeckQ)) (t1 t2 : Nat) (l : List Card)
    (hB : ∀ u k url, B u k = UploadRes.success url → url ≠ "")
    (hl : HLpred pages deckMap l)
    (code : String) :
    ∀ fuel i streak (s1 s2 : ScanSt) (R : DB) (future : List String),
      ((s1.db.map Prod.fst ++ (List.range' i fuel).map (mkId code)) ++ future).Nodup →
      DbInv pages deckMap s1.db →
      s2.db = lAssocOf l ++ R →
      RRel (l.map Card.id) s1.db R →
      SimConcl pages deckMap l s1 s2 future
        (scanAux B pages deckMap t1 code i fuel streak s1)
        (scanAux B pages deckMap t2 code i fuel streak s2) := by
  intro fuel
  induction fuel with
  | zero =>
      intro i streak s1 s2 R future hfresh hinv hs2 hR
      rw [scanAux_zero, scanAux_zero]
      refine ⟨⟨R, hs2, hR⟩, hinv, dbExtends_refl s1.db, ?_, rfl, rfl,
        fun d hd => absurd hd (List.not_mem_nil d), List.Pairwise.nil,
        fun d2 hd2 => absurd hd2 (List.not_mem_nil d2)⟩
      simpa using hfresh
  | succ fuel ih =>
      intro i streak s1 s2 R future hfresh hinv hs2 hR
      rw [List.range'_succ, List.map_cons] at hfresh
      have hnk1 : mkId code i ∉ s1.db.map Prod.fst :=
        nodup_head_not_mem _ _ _ _ hfresh
      have hex1 : dbGet s1.db (mkId code i) = none := dbGet_eq_none _ _ hnk1
      by_cases hmem : mkId code i ∈ l.map Card.id
      · -- fast path in run 2, fresh hit in run 1
        obtain ⟨c, hcl, hcid, hget⟩ := dbGet_lAssoc_mem l (mkId code i) hmem
        have hgoodc := hl c hcl
        have hpres : pagePresent (pages (mkId code i)) = true := by
          have := hgoodc.2.2.1
          rw [hcid] at this
          exact this
        have hget2 : dbGet s2.db (mkId code i) = some c := by
          rw [hs2]
          exact dbGet_append_left _ _ _ _ hget
        have hforce : c.deck_quantities = lookupDq deckMap (mkId code i) := by
          have := hgoodc.2.2.2.2.2
          rw [hcid] at this
          exact this
        have e2 := scanAux_step_fast B pages deckMap t2 code i fuel streak s2 c hget2 hforce
        obtain ⟨nc1, hnc1⟩ := scrape_present_some B (pages (mkId code i)) (mkId code i)
          deckMap none s1.rlh t1 hpres
        have e1st := scanAux_step_hit_st B pages deckMap t1 code i fuel streak s1 nc1 hex1 hnc1
        have e1log := scanAux_step_hit_log B pages deckMap t1 code i fuel streak s1 nc1 hex1 hnc1
        generalize hX1 : (scrape_card B (pages (mkId code i)) (mkId code i) deckMap none
          s1.rlh t1).2.1 = X1 at e1st e1log
        obtain ⟨hid1, hcore1, hdq1⟩ := scrape_core B _ _ deckMap none s1.rlh t1 nc1 hnc1
        have him1 : nc1.image_url ≠ "" := scrape_image_ne B _ _ deckMap s1.rlh t1 nc1 hB hnc1
        have hset1 : dbSet s1.db (mkId code i) nc1 = s1.db ++ [(mkId code i, nc1)] :=
          dbSet_fresh _ _ _ hnk1
        rw [hset1] at e1st e1log
        have hgood1 : GoodEntry pages deckMap (mkId code i) nc1 :=
          ⟨hid1.symm, by rw [hid1]; exact mkId_ne code i, hpres, hcore1, him1, hdq1⟩
        have hfresh' : (((chkSave i ⟨s1.db ++ [(mkId code i, nc1)], X1, s1.file⟩).db.map
            Prod.fst ++ (List.range' (i + 1) fuel).map (mkId code)) ++ future).Nodup := by
          rw [chkSave_db]
          rw [List.map_append]
          simpa using nodup_shift _ _ _ _ hfresh
        have hinv' : DbInv pages deckMap
            (chkSave i ⟨s1.db ++ [(mkId code i, nc1)], X1, s1.file⟩).db := by
          rw [chkSave_db]
          intro kc hkc
          rcases List.mem_append.mp hkc with hk | hk
          · exact hinv kc hk
          · rw [List.mem_singleton] at hk
            rw [hk]
            exact hgood1
        have hR' : RRel (l.map Card.id)
            (chkSave i ⟨s1.db ++ [(mkId code i, nc1)], X1, s1.file⟩).db R := by
          rw [chkSave_db]
          exact RRel_append_skip _ _ _ _ hmem hR
        obtain ⟨⟨R', h2db, hrel⟩, hinvf, hextf, hnodupf, hfile1f, hfile2f,
          hboundf, hpairf, hlogrelf⟩ :=
          ih (i + 1) 0 (chkSave i ⟨s1.db ++ [(mkId code i, nc1)], X1, s1.file⟩)
            s2 R future hfresh' hinv' hs2 hR'
        rw [chkSave_db] at hextf hboundf
        unfold SimConcl
        refine ⟨⟨R', ?_, ?_⟩, ?_, ?_, ?_, ?_, ?_, ?_, ?_, ?_⟩
        · rw [e2]
          exact h2db
        · rw [e1st]
          exact hrel
        · rw [e1st]
          exact hinvf
        · rw [e1st]
          exact dbExtends_trans (dbExtends_append s1.db _) hextf
        · rw [e1st]
          exact hnodupf
        · rw [e1st, e1log, saveFold_append, hfile1f, chkSave_file_eq]
        · rw [e2]
          exact hfile2f
        · rw [e1st, e1log]
          intro d hd
          rcases List.mem_append.mp hd with hd1 | hd1
          · obtain ⟨hdd, -⟩ := chkLog_cases _ _ _ hd1
            rw [hdd]
            exact ⟨dbExtends_append s1.db _, hextf⟩
          · obtain ⟨hb1, hb2⟩ := hboundf d hd1
            exact ⟨dbExtends_trans (dbExtends_append s1.db _) hb1, hb2⟩
        · rw [e1log, List.pairwise_append]
          refine ⟨chkLog_pairwise _ _, hpairf, fun a ha b hb => ?_⟩
          obtain ⟨haa, -⟩ := chkLog_cases _ _ _ ha
          rw [haa]
          exact (hboundf b hb).1
        · rw [e2, e1log]
          intro d2 hd2
          obtain ⟨d1, hd1m, Rd, hrd1, hrd2⟩ := hlogrelf d2 hd2
          exact ⟨d1, List.mem_append_right _ hd1m, Rd, hrd1, hrd2⟩
      · -- not an l-record
        have hnk2 : dbGet s2.db (mkId code i) = none := by
          rw [hs2]
          rw [dbGet_append_right]
          · exact dbGet_eq_none _ _ (fun hmemR =>
              hnk1 (RRel_keys_subset _ _ _ hR hmemR))
          · rw [keys_lAssoc]
            exact hmem
        by_cases hpres : pagePresent (pages (mkId code i)) = true
        · -- hit in both runs
          obtain ⟨nc1, hnc1⟩ := scrape_present_some B (pages (mkId code i)) (mkId code i)
            deckMap none s1.rlh t1 hpres
          obtain ⟨nc2, hnc2⟩ := scrape_present_some B (pages (mkId code i)) (mkId code i)
            deckMap none s2.rlh t2 hpres
          have e1st := scanAux_step_hit_st B pages deckMap t1 code i fuel streak s1 nc1 hex1 hnc1
          have e1log := scanAux_step_hit_log B pages deckMap t1 code i fuel streak s1 nc1 hex1 hnc1
          have e2st := scanAux_step_hit_st B pages deckMap t2 code i fuel streak s2 nc2 hnk2 hnc2
          have e2log := scanAux_step_hit_log B pages deckMap t2 code i fuel streak s2 nc2 hnk2 hnc2
          generalize hX1 : (scrape_card B (pages (mkId code i)) (mkId code i) deckMap none
            s1.rlh t1).2.1 = X1 at e1st e1log
          generalize hX2 : (scrape_card B (pages (mkId code i)) (mkId code i) deckMap none
            s2.rlh t2).2.1 = X2 at e2st e2log
          obtain ⟨hid1, hcore1, hdq1⟩ := scrape_core B _ _ deckMap none s1.rlh t1 nc1 hnc1
          have him1 : nc1.image_url ≠ "" := scrape_image_ne B _ _ deckMap s1.rlh t1 nc1 hB hnc1
          obtain ⟨hid2, hcore2, hdq2⟩ := scrape_core B _ _ deckMap none s2.rlh t2 nc2 hnc2
          have him2 : nc2.image_url ≠ "" := scrape_image_ne B _ _ deckMap s2.rlh t2 nc2 hB hnc2
          have hbadeq : badCard nc2 = badCard nc1 := by
            rw [badCard_eq_pageBad nc2 _ hcore2 him2, badCard_eq_pageBad nc1 _ hcore1 him1]
          have hset1 : dbSet s1.db (mkId code i) nc1 = s1.db ++ [(mkId code i, nc1)] :=
            dbSet_fresh _ _ _ hnk1
          have hnk2' : mkId code i ∉ s2.db.map Prod.fst := by
            rw [hs2, List.map_append]
            intro hk
            rcases List.mem_append.mp hk with hk | hk
            · rw [keys_lAssoc] at hk
              exact hmem hk
            · exact hnk1 (RRel_keys_subset _ _ _ hR hk)
          have hset2 : dbSet s2.db (mkId code i) nc2 = s2.db ++ [(mkId code i, nc2)] :=
            dbSet_fresh _ _ _ hnk2'
          rw [hset1] at e1st e1log
          rw [hset2, hs2, List.append_assoc (lAssocOf l) R [(mkId code i, nc2)]] at e2st e2log
          have hgood1 : GoodEntry pages deckMap (mkId code i) nc1 :=
            ⟨hid1.symm, by rw [hid1]; exact mkId_ne code i, hpres, hcore1, him1, hdq1⟩
          have hfresh' : (((chkSave i ⟨s1.db ++ [(mkId code i, nc1)], X1, s1.file⟩).db.map
              Prod.fst ++ (List.range' (i + 1) fuel).map (mkId code)) ++ future).Nodup := by
            rw [chkSave_db]
            rw [List.map_append]
            simpa using nodup_shift _ _ _ _ hfresh
          have hinv' : DbInv pages deckMap
              (chkSave i ⟨s1.db ++ [(mkId code i, nc1)], X1, s1.file⟩).db := by
            rw [chkSave_db]
            intro kc hkc
            rcases List.mem_append.mp hkc with hk | hk
            · exact hinv kc hk
            · rw [List.mem_singleton] at hk
              rw [hk]
              exact hgood1
          have hs2' : (chkSave i ⟨lAssocOf l ++ (R ++ [(mkId code i, nc2)]), X2, s2.file⟩).db
              = lAssocOf l ++ (R ++ [(mkId code i, nc2)]) := chkSave_db _ _
          have hR' : RRel (l.map Card.id)
              (chkSave i ⟨s1.db ++ [(mkId code i, nc1)], X1, s1.file⟩).db
              (R ++ [(mkId code i, nc2)]) := by
            rw [chkSave_db]
            exact RRel_append_add _ _ _ _ _ hmem rfl hbadeq hR
          obtain ⟨⟨R', h2db, hrel⟩, hinvf, hextf, hnodupf, hfile1f, hfile2f,
            hboundf, hpairf, hlogrelf⟩ :=
            ih (i + 1) 0 (chkSave i ⟨s1.db ++ [(mkId code i, nc1)], X1, s1.file⟩)
              (chkSave i ⟨lAssocOf l ++ (R ++ [(mkId code i, nc2)]), X2, s2.file⟩)
              (R ++ [(mkId code i, nc2)]) future hfresh' hinv' hs2' hR'
          rw [chkSave_db] at hextf hboundf
          unfold SimConcl
          refine ⟨⟨R', ?_, ?_⟩, ?_, ?_, ?_, ?_, ?_, ?_, ?_, ?_⟩
          · rw [e2st]
            exact h2db
          · rw [e1st]
            exact hrel
          · rw [e1st]
            exact hinvf
          · rw [e1st]
            exact dbExtends_trans (dbExtends_append s1.db _) hextf
          · rw [e1st]
            exact hnodupf
          · rw [e1st, e1log, saveFold_append, hfile1f, chkSave_file_eq]
          · rw [e2st, e2log, saveFold_append, hfile2f, chkSave_file_eq]
          · rw [e1st, e1log]
            intro d hd
            rcases List.mem_append.mp hd with hd1 | hd1
            · obtain ⟨hdd, -⟩ := chkLog_cases _ _ _ hd1
              rw [hdd]
              exact ⟨dbExtends_append s1.db _, hextf⟩
            · obtain ⟨hb1, hb2⟩ := hboundf d hd1
              exact ⟨dbExtends_trans (dbExtends_append s1.db _) hb1, hb2⟩
          · rw [e1log, List.pairwise_append]
            refine ⟨chkLog_pairwise _ _, hpairf, fun a ha b hb => ?_⟩
            obtain ⟨haa, -⟩ := chkLog_cases _ _ _ ha
            rw [haa]
            exact (hboundf b hb).1
          · rw [e2log, e1log]
            intro d2 hd2
            rcases List.mem_append.mp hd2 with hdm | hdm
            · obtain ⟨hdd, hfire⟩ := chkLog_cases _ _ _ hdm
              refine ⟨s1.db ++ [(mkId code i, nc1)],
                List.mem_append_left _ (chkLog_mem_self i _ hfire),
                R ++ [(mkId code i, nc2)], ?_, ?_⟩
              · rw [hdd]
              · exact RRel_append_add _ _ _ _ _ hmem rfl hbadeq hR
            · obtain ⟨d1, hd1m, Rd, hrd1, hrd2⟩ := hlogrelf d2 hdm
              exact ⟨d1, List.mem_append_right _ hd1m, Rd, hrd1, hrd2⟩
        · -- miss in both runs
          have hpf : pagePresent (pages (mkId code i)) = false :=
            Bool.not_eq_true _ ▸ (by simpa using hpres)
          have hsc1 : (scrape_card B (pages (mkId code i)) (mkId code i) deckMap none
              s1.rlh t1).1 = none := (scrape_none_iff _ _ _ _ _ _ _).mpr hpf
          have hsc2 : (scrape_card B (pages (mkId code i)) (mkId code i) deckMap none
              s2.rlh t2).1 = none := (scrape_none_iff _ _ _ _ _ _ _).mpr hpf
          by_cases hbr : streak + 1 > MAX_MISSES
          · -- break in both runs
            obtain ⟨e1db, e1f, e1log⟩ :=
              scanAux_step_break B pages deckMap t1 code i fuel streak s1 hex1 hsc1 hbr
            obtain ⟨e2db, e2f, e2log⟩ :=
              scanAux_step_break B pages deckMap t2 code i fuel streak s2 hnk2 hsc2 hbr
            unfold SimConcl
            refine ⟨⟨R, ?_, ?_⟩, ?_, ?_, ?_, ?_, ?_, ?_, ?_, ?_⟩
            · rw [e2db, hs2]
            · rw [e1db]
              exact hR
            · rw [e1db]
              exact hinv
            · rw [e1db]
              exact dbExtends_refl s1.db
            · rw [e1db]
              exact nodup_drop_mid _ _ _ hfresh
            · rw [e1f, e1log]
              rfl
            · rw [e2f, e2log]
              rfl
            · rw [e1log]
              intro d hd
              exact absurd hd (List.not_mem_nil d)
            · rw [e1log]
              exact List.Pairwise.nil
            · rw [e2log]
              intro d2 hd2
              exact absurd hd2 (List.not_mem_nil d2)
          · -- miss, continue
            have e1st := scanAux_step_miss_st B pages deckMap t1 code i fuel streak s1 hex1 hsc1 hbr
            have e1log := scanAux_step_miss_log B pages deckMap t1 code i fuel streak s1 hex1 hsc1 hbr
            have e2st := scanAux_step_miss_st B pages deckMap t2 code i fuel streak s2 hnk2 hsc2 hbr
            have e2log := scanAux_step_miss_log B pages deckMap t2 code i fuel streak s2 hnk2 hsc2 hbr
            generalize hX1 : (scrape_card B (pages (mkId code i)) (mkId code i) deckMap none
              s1.rlh t1).2.1 = X1 at e1st e1log
            generalize hX2 : (scrape_card B (pages (mkId code i)) (mkId code i) deckMap none
              s2.rlh t2).2.1 = X2 at e2st e2log
            have hfresh' : (((chkSave i ⟨s1.db, X1, s1.file⟩).db.map Prod.fst
                ++ (List.range' (i + 1) fuel).map (mkId code)) ++ future).Nodup := by
              rw [chkSave_db]
              exact nodup_drop _ _ _ _ hfresh
            have hinv' : DbInv pages deckMap (chkSave i ⟨s1.db, X1, s1.file⟩).db := by
              rw [chkSave_db]
              exact hinv
            have hs2' : (chkSave i ⟨s2.db, X2, s2.file⟩).db = lAssocOf l ++ R := by
              rw [chkSave_db]
              exact hs2
            have hR' : RRel (l.map Card.id) (chkSave i ⟨s1.db, X1, s1.file⟩).db R := by
              rw [chkSave_db]
              exact hR
            obtain ⟨⟨R', h2db, hrel⟩, hinvf, hextf, hnodupf, hfile1f, hfile2f,
              hboundf, hpairf, hlogrelf⟩ :=
              ih (i + 1) (streak + 1) (chkSave i ⟨s1.db, X1, s1.file⟩)
                (chkSave i ⟨s2.db, X2, s2.file⟩) R future hfresh' hinv' hs2' hR'
            rw [chkSave_db] at hextf hboundf
            unfold SimConcl
            refine ⟨⟨R', ?_, ?_⟩, ?_, ?_, ?_, ?_, ?_, ?_, ?_, ?_⟩
            · rw [e2st]
              exact h2db
            · rw [e1st]
              exact hrel
            · rw [e1st]
              exact hinvf
            · rw [e1st]
              exact hextf
            · rw [e1st]
              exact hnodupf
            · rw [e1st, e1log, saveFold_append, hfile1f, chkSave_file_eq]
            · rw [e2st, e2log, saveFold_append, hfile2f, chkSave_file_eq]
            · rw [e1st, e1log]
              intro d hd
              rcases List.mem_append.mp hd with hd1 | hd1
              · obtain ⟨hdd, -⟩ := chkLog_cases i s1.db d hd1
                rw [hdd]
                exact ⟨dbExtends_refl s1.db, hextf⟩
              · obtain ⟨hb1, hb2⟩ := hboundf d hd1
                exact ⟨hb1, hb2⟩
            · rw [e1log]
              rw [List.pairwise_append]
              refine ⟨chkLog_pairwise i s1.db, hpairf, fun a ha b hb => ?_⟩
              obtain ⟨haa, -⟩ := chkLog_cases i s1.db a ha
              rw [haa]
              exact (hboundf b hb).1
            · rw [e2log, e1log]
              intro d2 hd2
              rcases List.mem_append.mp hd2 with hdm | hdm
              · obtain ⟨hdd, hfire⟩ := chkLog_cases i s2.db d2 hdm
                refine ⟨s1.db, List.mem_append_left _ (chkLog_mem_self i s1.db hfire),
                  R, ?_, ?_⟩
                · rw [hdd, hs2]
                · exact hR
              · obtain ⟨d1, hd1m, Rd, hrd1, hrd2⟩ := hlogrelf d2 hdm
                exact ⟨d1, List.mem_append_right _ hd1m, Rd, hrd1, hrd2⟩

theorem scanSets_sim (B : Backend) (pages : String → Page)
    (deckMap : List (String × DeckQ)) (t1 t2 : Nat) (l : List Card)
    (hB : ∀ u k url, B u k = UploadRes.success url → url ≠ "")
    (hl : HLpred pages deckMap l) :
    ∀ (sets : List (String × Nat)) (s1 s2 : ScanSt) (R : DB) (future : List String),
      ((s1.db.map Prod.fst ++ allIds sets) ++ future).Nodup →
      DbInv pages deckMap s1.db →
      s2.db = lAssocOf l ++ R →
      RRel (l.map Card.id) s1.db R →
      SimConcl pages deckMap l s1 s2 future
        (scanSets B pages deckMap t1 sets s1)
        (scanSets B pages deckMap t2 sets s2) := by
  intro sets
  induction sets with
  | nil =>
      intro s1 s2 R future hfresh hinv hs2 hR
      unfold SimConcl
      refine ⟨⟨R, hs2, hR⟩, hinv, dbExtends_refl _, ?_, rfl, rfl,
        fun d hd => absurd hd (List.not_mem_nil d), List.Pairwise.nil,
        fun d2 hd2 => absurd hd2 (List.not_mem_nil d2)⟩
      simpa [allIds] using hfresh
  | cons cl rest ihsets =>
      intro s1 s2 R future hfresh hinv hs2 hR
      obtain ⟨code, limit⟩ := cl
      have hallids : allIds ((code, limit) :: rest)
          = (List.range' 1 limit).map (mkId code) ++ allIds rest := by
        simp [allIds]
      rw [hallids] at hfresh
      have hfreshA : ((s1.db.map Prod.fst ++ (List.range' 1 limit).map (mkId code))
          ++ (allIds rest ++ future)).Nodup := by
        simpa [List.append_assoc] using hfresh
      obtain ⟨⟨R', h2db, hrel⟩, hinvf, hextf, hnodupf, hfile1f, hfile2f,
        hboundf, hpairf, hlogrelf⟩ :=
        scanAux_sim B pages deckMap t1 t2 l hB hl code limit 1 0 s1 s2 R
          (allIds rest ++ future) hfreshA hinv hs2 hR
      have hfreshB : (((scanAux B pages deckMap t1 code 1 limit 0 s1).1.db.map Prod.fst
          ++ allIds rest) ++ future).Nodup := by
        simpa [List.append_assoc] using hnodupf
      obtain ⟨⟨R'', h2db2, hrel2⟩, hinvf2, hextf2, hnodupf2, hfile1f2, hfile2f2,
        hboundf2, hpairf2, hlogrelf2⟩ :=
        ihsets (scanAux B pages deckMap t1 code 1 limit 0 s1).1
          (scanAux B pages deckMap t2 code 1 limit 0 s2).1 R' future
          hfreshB hinvf h2db hrel
      unfold SimConcl
      simp only [scanSets, scanSet]
      refine ⟨⟨R'', h2db2, hrel2⟩, hinvf2, ?_, hnodupf2, ?_, ?_, ?_, ?_, ?_⟩
      · exact dbExtends_trans hextf hextf2
      · rw [saveFold_append, ← hfile1f]
        exact hfile1f2
      · rw [saveFold_append, ← hfile2f]
        exact hfile2f2
      · intro d hd
        rcases List.mem_append.mp hd with hm | hm
        · obtain ⟨hb1, hb2⟩ := hboundf d hm
          exact ⟨hb1, dbExtends_trans hb2 hextf2⟩
        · obtain ⟨hb1, hb2⟩ := hboundf2 d hm
          exact ⟨dbExtends_trans hextf hb1, hb2⟩
      · rw [List.pairwise_append]
        refine ⟨hpairf, hpairf2, fun a ha b hb => ?_⟩
        exact dbExtends_trans (hboundf a ha).2 (hboundf2 b hb).1
      · intro d2 hd2
        rcases List.mem_append.mp hd2 with hm | hm
        · obtain ⟨d1, hd1m, Rd, hrd1, hrd2⟩ := hlogrelf d2 hm
          exact ⟨d1, List.mem_append_left _ hd1m, Rd, hrd1, hrd2⟩
        · obtain ⟨d1, hd1m, Rd, hrd1, hrd2⟩ := hlogrelf2 d2 hm
          exact ⟨d1, List.mem_append_right _ hd1m, Rd, hrd1, hrd2⟩

/-! ## Idempotence (C1): assembling the two runs -/

theorem saveFold_cons (d : DB) (g : List DB) (f : Option (List Card)) :
    saveFold (d :: g) f = saveFold g (save_db d f) := rfl

theorem saveFold_concat (g : List DB) (d : DB) (f : Option (List Card)) :
    saveFold (g ++ [d]) f = save_db d (saveFold g f) := by
  unfold saveFold
  rw [List.foldl_append]
  rfl

theorem saveFold_all_empty (g : List DB) (f : Option (List Card))
    (h : ∀ d ∈ g, d = []) : saveFold g f = f := by
  induction g with
  | nil => rfl
  | cons d g' ih =>
      rw [saveFold_cons]
      rw [h d (List.mem_cons_self d g')]
      rw [show save_db [] f = f from rfl]
      exact ih (fun d' hd' => h d' (List.mem_cons_of_mem d hd'))

theorem saveFold_some_ne_none (g : List DB) (v : List Card) :
    saveFold g (some v) ≠ none := by
  induction g generalizing v with
  | nil => simp [saveFold]
  | cons d g' ih =>
      rw [saveFold_cons]
      unfold save_db
      by_cases hd : d.length > 0
      · rw [if_pos hd]
        exact ih _
      · rw [if_neg hd]
        exact ih v

theorem saveFold_none_empty (g : List DB) (h : saveFold g none = none) :
    ∀ d ∈ g, d = [] := by
  induction g with
  | nil => simp
  | cons d g' ih =>
      rw [saveFold_cons] at h
      by_cases hd : d = []
      · intro d' hd'
        rcases List.mem_cons.mp hd' with hm | hm
        · rw [hm, hd]
        · refine ih ?_ d' hm
          rw [hd] at h
          exact h
      · exfalso
        have hlen : d.length > 0 := List.length_pos.mpr hd
        rw [show save_db d none = some (dbValues d) from by
          unfold save_db; rw [if_pos hlen]] at h
        exact saveFold_some_ne_none g' (dbValues d) h

theorem final_file_some (g : List DB) (l : List Card)
    (hpair : List.Pairwise dbExtends g)
    (h : saveFold g none = some l) :
    ∃ dL, dL ∈ g ∧ dL ≠ [] ∧ dbValues dL = l ∧ ∀ d ∈ g, dbExtends d dL := by
  rcases List.eq_nil_or_concat g with hg | ⟨g', d, hg⟩
  · rw [hg] at h
    simp [saveFold] at h
  · rw [List.concat_eq_append] at hg
    subst hg
    by_cases hd : d = []
    · exfalso
      have hall : ∀ d' ∈ g' ++ [d], d' = [] := by
        intro d' hd'
        rcases List.mem_append.mp hd' with hm | hm
        · have hrel : dbExtends d' d := by
            rcases List.pairwise_append.mp hpair with ⟨-, -, hcross⟩
            exact hcross d' hm d (List.mem_singleton_self d)
          rw [hd] at hrel
          exact dbExtends_nil_right hrel
        · rw [List.mem_singleton] at hm
          rw [hm, hd]
      rw [saveFold_all_empty _ _ hall] at h
      cases h
    · refine ⟨d, List.mem_append_right _ (List.mem_singleton_self d), hd, ?_, ?_⟩
      · rw [saveFold_concat] at h
        unfold save_db at h
        rw [if_pos (List.length_pos.mpr hd)] at h
        injection h with h2
      · intro d' hd'
        rcases List.mem_append.mp hd' with hm | hm
        · rcases List.pairwise_append.mp hpair with ⟨-, -, hcross⟩
          exact hcross d' hm d (List.mem_singleton_self d)
        · rw [List.mem_singleton] at hm
          rw [hm]
          exact dbExtends_refl d

theorem filter_notin_empty (lIds : List String) (d : DB)
    (h : ∀ k ∈ d.map Prod.fst, k ∈ lIds) :
    d.filter (fun kc => decide (kc.1 ∉ lIds)) = [] := by
  rw [List.filter_eq_nil_iff]
  intro kc hkc
  intro hdec
  rw [decide_eq_true_eq] at hdec
  exact hdec (h kc.1 (List.mem_map_of_mem Prod.fst hkc))

theorem RRel_right_empty (lIds : List String) (d R : DB) (h : RRel lIds d R)
    (hf : d.filter (fun kc => decide (kc.1 ∉ lIds)) = []) : R = [] := by
  unfold RRel at h
  rw [hf] at h
  cases h
  rfl

theorem keys_eq_values_ids (pages : String → Page) (deckMap : List (String × DeckQ))
    (d : DB) (hinv : DbInv pages deckMap d) :
    d.map Prod.fst = (dbValues d).map Card.id := by
  induction d with
  | nil => rfl
  | cons kc rest ih =>
      have h1 := (hinv kc (List.mem_cons_self kc rest)).1
      simp only [dbValues, List.map_cons] at ih ⊢
      rw [h1, ih (fun kc2 hk => hinv kc2 (List.mem_cons_of_mem kc hk))]

theorem mem_of_extends {d1 d2 : DB} (h : dbExtends d1 d2) :
    ∀ kc ∈ d1, kc ∈ d2 := by
  obtain ⟨x, hx⟩ := h
  intro kc hkc
  rw [hx]
  exact List.mem_append_left x hkc

theorem nodup_keys_of_extends {d1 d2 : DB} (h : dbExtends d1 d2)
    (hnd : (d2.map Prod.fst).Nodup) : (d1.map Prod.fst).Nodup := by
  obtain ⟨x, hx⟩ := h
  rw [hx, List.map_append] at hnd
  exact (List.nodup_append.mp hnd).1

theorem saveFold_const (g : List DB) (l : List Card) (hne : lAssocOf l ≠ [])
    (hall : ∀ d ∈ g, d = lAssocOf l) : saveFold g (some l) = some l := by
  induction g with
  | nil => rfl
  | cons d g' ih =>
      rw [saveFold_cons]
      rw [hall d (List.mem_cons_self d g')]
      rw [show save_db (lAssocOf l) (some l) = some l from by
        unfold save_db
        rw [if_pos (List.length_pos.mpr hne), dbValues_lAssoc]]
      exact ih (fun d' hd' => hall d' (List.mem_cons_of_mem d hd'))

theorem values_purge_good (d : DB) :
    ∀ c ∈ dbValues (purge_bad_data d), badCard c = false := by
  intro c hc
  rw [purge_eq_filter] at hc
  unfold dbValues at hc
  rw [List.mem_map] at hc
  obtain ⟨kc, hkc, hsnd⟩ := hc
  have h2 := List.of_mem_filter hkc
  rw [← hsnd]
  simpa using h2

theorem purge_sub (d : DB) : ∀ kc ∈ purge_bad_data d, kc ∈ d := by
  intro kc hkc
  rw [purge_eq_filter] at hkc
  exact List.mem_of_mem_filter hkc

theorem mem_purge_of_good (d : DB) (kc : String × Card) (hm : kc ∈ d)
    (hg : badCard kc.2 = false) : kc ∈ purge_bad_data d := by
  rw [purge_eq_filter]
  refine List.mem_filter.mpr ⟨hm, ?_⟩
  simp [hg]

theorem mem_lAssoc_values (l : List Card) : ∀ kc ∈ lAssocOf l, kc.2 ∈ l := by
  intro kc hkc
  unfold lAssocOf at hkc
  rw [List.mem_map] at hkc
  obtain ⟨c, hc, hkc2⟩ := hkc
  rw [← hkc2]
  exact hc

theorem run_update_eq (B : Backend) (pages : String → Page)
    (dm : List (String × DeckQ)) (sets : List (String × Nat)) (t : Nat)
    (file0 : Option (List Card)) :
    run_update B pages dm sets t file0
      = save_db
          (purge_bad_data (scanSets B pages dm t sets
            ⟨loadDb file0, false, file0⟩).1.db)
          (scanSets B pages dm t sets ⟨loadDb file0, false, file0⟩).1.file := rfl

theorem save_db_pos (db : DB) (f : Option (List Card)) (h : db ≠ []) :
    save_db db f = some (dbValues db) := by
  unfold save_db
  rw [if_pos (List.length_pos.mpr h)]

theorem save_db_nil (f : Option (List Card)) : save_db [] f = f := rfl

set_option maxHeartbeats 1000000 in
theorem run_update_idem (B : Backend) (pages : String → Page)
    (deckMap : List (String × DeckQ)) (sets : List (String × Nat)) (t1 t2 : Nat)
    (hB : ∀ u k url, B u k = UploadRes.success url → url ≠ "")
    (hnd : (allIds sets).Nodup) :
    run_update B pages deckMap sets t2 (run_update B pages deckMap sets t1 none)
      = run_update B pages deckMap sets t1 none := by
  have hfresh0 : ((((⟨loadDb none, false, none⟩ : ScanSt)).db.map Prod.fst
      ++ allIds sets) ++ ([] : List String)).Nodup := by
    simpa [loadDb] using hnd
  have hinv0 : DbInv pages deckMap ((⟨loadDb none, false, none⟩ : ScanSt)).db := by
    intro kc hkc
    simp [loadDb] at hkc
  obtain ⟨-, hinv1, -, hnodup1, hfile1, -, hbound1, hpair1, -⟩ :=
    scanSets_sim B pages deckMap t1 t2 [] hB
      (fun c hc => absurd hc (List.not_mem_nil c)) sets
      ⟨loadDb none, false, none⟩ ⟨loadDb none, false, none⟩ [] []
      hfresh0 hinv0 (by simp [loadDb, lAssocOf]) (RRel_nil _)
  by_cases hpur : purge_bad_data
      (scanSets B pages deckMap t1 sets ⟨loadDb none, false, none⟩).1.db = []
  · -- the purge drops everything: the first run's output is its last checkpoint
    have hF1 : run_update B pages deckMap sets t1 none
        = saveFold (scanSets B pages deckMap t1 sets
            ⟨loadDb none, false, none⟩).2.2 none := by
      rw [run_update_eq, hpur, save_db_nil]
      exact hfile1
    have hbad1 : ∀ kc ∈ (scanSets B pages deckMap t1 sets
        ⟨loadDb none, false, none⟩).1.db, badCard kc.2 = true :=
      purge_empty_all_bad _ hpur
    cases hsf : saveFold (scanSets B pages deckMap t1 sets
        ⟨loadDb none, false, none⟩).2.2 none with
    | none =>
        have hF1n : run_update B pages deckMap sets t1 none = none := by
          rw [hF1, hsf]
        rw [hF1n]
        obtain ⟨⟨R', h2db, hrel⟩, -, -, -, -, hfile2, -, -, hlogrel⟩ :=
          scanSets_sim B pages deckMap t1 t2 [] hB
            (fun c hc => absurd hc (List.not_mem_nil c)) sets
            ⟨loadDb none, false, none⟩ ⟨loadDb none, false, none⟩ [] []
            hfresh0 hinv0 (by simp [loadDb, lAssocOf]) (RRel_nil _)
        have hbadR : ∀ kc ∈ R', badCard kc.2 = true :=
          RRel_bad _ _ _ hrel (fun kc hk _ => hbad1 kc hk)
        have hpurge2 : purge_bad_data
            (scanSets B pages deckMap t2 sets ⟨loadDb none, false, none⟩).1.db = [] := by
          rw [h2db, show lAssocOf ([] : List Card) = [] from rfl, List.nil_append]
          exact purge_all_bad _ hbadR
        have hg2empty : ∀ d2 ∈ (scanSets B pages deckMap t2 sets
            ⟨loadDb none, false, none⟩).2.2, d2 = [] := by
          intro d2 hd2
          obtain ⟨d1, hd1m, Rd, hrd1, hrd2⟩ := hlogrel d2 hd2
          have hd1e : d1 = [] := saveFold_none_empty _ hsf d1 hd1m
          have hrde : Rd = [] := RRel_right_empty _ _ _ hrd2 (by rw [hd1e]; rfl)
          rw [hrd1, hrde]
          rfl
        rw [run_update_eq, hpurge2, save_db_nil, hfile2,
          saveFold_all_empty _ _ hg2empty]
    | some lv =>
        have hF1s : run_update B pages deckMap sets t1 none = some lv := by
          rw [hF1, hsf]
        rw [hF1s]
        obtain ⟨dL, hdLmem, hdLne, hdLval, hdLmax⟩ := final_file_some _ lv hpair1 hsf
        have hdLext : dbExtends dL (scanSets B pages deckMap t1 sets
            ⟨loadDb none, false, none⟩).1.db := (hbound1 dL hdLmem).2
        have hinvdL : DbInv pages deckMap dL :=
          fun kc hk => hinv1 kc (mem_of_extends hdLext kc hk)
        have hkeqL : dL.map Prod.fst = lv.map Card.id := by
          rw [← hdLval]
          exact keys_eq_values_ids pages deckMap dL hinvdL
        have hlv : HLpred pages deckMap lv := by
          intro c hc
          rw [← hdLval] at hc
          obtain ⟨kc, hkc, hsnd⟩ := List.mem_map.mp hc
          have hg := hinvdL kc hkc
          rw [← hsnd, ← hg.1]
          exact hg
        have hids : ∀ c ∈ lv, c.id ≠ "" := fun c hc => (hlv c hc).2.1
        have hndlv : (lv.map Card.id).Nodup := by
          rw [← hkeqL]
          exact nodup_keys_of_extends hdLext (by simpa using hnodup1)
        have hload : loadDb (some lv) = lAssocOf lv := loadDb_eq lv hids hndlv
        obtain ⟨⟨R', h2db, hrel⟩, -, -, -, -, hfile2, -, -, hlogrel⟩ :=
          scanSets_sim B pages deckMap t1 t2 lv hB hlv sets
            ⟨loadDb none, false, none⟩ ⟨loadDb (some lv), false, some lv⟩ [] []
            hfresh0 hinv0 (by rw [show ((⟨loadDb (some lv), false, some lv⟩ : ScanSt)).db
              = loadDb (some lv) from rfl, hload, List.append_nil]) (RRel_nil _)
        have hbadR : ∀ kc ∈ R', badCard kc.2 = true :=
          RRel_bad _ _ _ hrel (fun kc hk _ => hbad1 kc hk)
        have hbadl : ∀ kc ∈ lAssocOf lv, badCard kc.2 = true := by
          intro kc hkc
          have h2 := mem_lAssoc_values lv kc hkc
          rw [← hdLval] at h2
          obtain ⟨kc', hkc', hsnd⟩ := List.mem_map.mp h2
          rw [← hsnd]
          exact hbad1 kc' (mem_of_extends hdLext kc' hkc')
        have hpurge2 : purge_bad_data
            (scanSets B pages deckMap t2 sets
              ⟨loadDb (some lv), false, some lv⟩).1.db = [] := by
          rw [h2db, purge_append, purge_all_bad _ hbadl, purge_all_bad _ hbadR]
          rfl
        have hlvne : lv ≠ [] := by
          intro h0
          apply hdLne
          rw [h0] at hdLval
          exact List.map_eq_nil_iff.mp hdLval
        have hlassocne : lAssocOf lv ≠ [] := by
          intro h0
          exact hlvne (List.map_eq_nil_iff.mp h0)
        have hg2const : ∀ d2 ∈ (scanSets B pages deckMap t2 sets
            ⟨loadDb (some lv), false, some lv⟩).2.2, d2 = lAssocOf lv := by
          intro d2 hd2
          obtain ⟨d1, hd1m, Rd, hrd1, hrd2⟩ := hlogrel d2 hd2
          have hkeys : ∀ k ∈ d1.map Prod.fst, k ∈ lv.map Card.id := by
            intro k hk
            rw [← hkeqL]
            exact dbExtends_keys_subset (hdLmax d1 hd1m) hk
          have hrde : Rd = [] := RRel_right_empty _ _ _ hrd2 (filter_notin_empty _ _ hkeys)
          rw [hrd1, hrde, List.append_nil]
        rw [run_update_eq, hpurge2, save_db_nil, hfile2]
        exact saveFold_const _ lv hlassocne hg2const
  · -- the purge keeps something: the first run's output is the purged snapshot
    have hF1 : run_update B pages deckMap sets t1 none
        = some (dbValues (purge_bad_data (scanSets B pages deckMap t1 sets
            ⟨loadDb none, false, none⟩).1.db)) := by
      rw [run_update_eq, save_db_pos _ _ hpur]
    rw [hF1]
    have hinvP : DbInv pages deckMap (purge_bad_data (scanSets B pages deckMap t1 sets
        ⟨loadDb none, false, none⟩).1.db) :=
      fun kc hk => hinv1 kc (purge_sub _ kc hk)
    have hkeq : (purge_bad_data (scanSets B pages deckMap t1 sets
        ⟨loadDb none, false, none⟩).1.db).map Prod.fst
        = (dbValues (purge_bad_data (scanSets B pages deckMap t1 sets
            ⟨loadDb none, false, none⟩).1.db)).map Card.id :=
      keys_eq_values_ids pages deckMap _ hinvP
    have hl : HLpred pages deckMap (dbValues (purge_bad_data
        (scanSets B pages deckMap t1 sets ⟨loadDb none, false, none⟩).1.db)) := by
      intro c hc
      obtain ⟨kc, hkc, hsnd⟩ := List.mem_map.mp hc
      have hg := hinvP kc hkc
      rw [← hsnd, ← hg.1]
      exact hg
    have hids : ∀ c ∈ dbValues (purge_bad_data (scanSets B pages deckMap t1 sets
        ⟨loadDb none, false, none⟩).1.db), c.id ≠ "" :=
      fun c hc => (hl c hc).2.1
    have hndl : ((dbValues (purge_bad_data (scanSets B pages deckMap t1 sets
        ⟨loadDb none, false, none⟩).1.db)).map Card.id).Nodup := by
      rw [← hkeq, purge_eq_filter]
      refine List.Nodup.sublist ?_ (by simpa using hnodup1)
      exact List.Sublist.map Prod.fst (List.filter_sublist _)
    have hload := loadDb_eq _ hids hndl
    obtain ⟨⟨R', h2db, hrel⟩, -, -, -, -, hfile2, -, -, hlogrel⟩ :=
      scanSets_sim B pages deckMap t1 t2
        (dbValues (purge_bad_data (scanSets B pages deckMap t1 sets
          ⟨loadDb none, false, none⟩).1.db)) hB hl sets
        ⟨loadDb none, false, none⟩
        ⟨loadDb (some (dbValues (purge_bad_data (scanSets B pages deckMap t1 sets
          ⟨loadDb none, false, none⟩).1.db))), false,
          some (dbValues (purge_bad_data (scanSets B pages deckMap t1 sets
            ⟨loadDb none, false, none⟩).1.db))⟩ [] []
        hfresh0 hinv0 (by rw [show ((⟨loadDb (some (dbValues (purge_bad_data
          (scanSets B pages deckMap t1 sets ⟨loadDb none, false, none⟩).1.db))), false,
          some (dbValues (purge_bad_data (scanSets B pages deckMap t1 sets
            ⟨loadDb none, false, none⟩).1.db))⟩ : ScanSt)).db
          = loadDb (some (dbValues (purge_bad_data (scanSets B pages deckMap t1 sets
            ⟨loadDb none, false, none⟩).1.db))) from rfl, hload, List.append_nil])
        (RRel_nil _)
    have hgoodl : ∀ kc ∈ lAssocOf (dbValues (purge_bad_data
        (scanSets B pages deckMap t1 sets ⟨loadDb none, false, none⟩).1.db)),
        badCard kc.2 = false := by
      intro kc hkc
      exact values_purge_good _ kc.2 (mem_lAssoc_values _ kc hkc)
    have hbadR : ∀ kc ∈ R', badCard kc.2 = true := by
      refine RRel_bad _ _ _ hrel ?_
      intro kc hkc hnotin
      cases hbc : badCard kc.2 with
      | false =>
          exfalso
          have hmemP := mem_purge_of_good _ kc hkc hbc
          have hmk : kc.1 ∈ (purge_bad_data (scanSets B pages deckMap t1 sets
              ⟨loadDb none, false, none⟩).1.db).map Prod.fst :=
            List.mem_map_of_mem Prod.fst hmemP
          rw [hkeq] at hmk
          exact hnotin hmk
      | true => rfl
    have hpurge2 : purge_bad_data (scanSets B pages deckMap t2 sets
        ⟨loadDb (some (dbValues (purge_bad_data (scanSets B pages deckMap t1 sets
          ⟨loadDb none, false, none⟩).1.db))), false,
          some (dbValues (purge_bad_data (scanSets B pages deckMap t1 sets
            ⟨loadDb none, false, none⟩).1.db))⟩).1.db
        = lAssocOf (dbValues (purge_bad_data (scanSets B pages deckMap t1 sets
            ⟨loadDb none, false, none⟩).1.db)) := by
      rw [h2db, purge_append, purge_all_good _ hgoodl, purge_all_bad _ hbadR,
        List.append_nil]
    have hpne : dbValues (purge_bad_data (scanSets B pages deckMap t1 sets
        ⟨loadDb none, false, none⟩).1.db) ≠ [] := by
      intro h0
      exact hpur (List.map_eq_nil_iff.mp h0)
    have hlassocne : lAssocOf (dbValues (purge_bad_data (scanSets B pages deckMap t1 sets
        ⟨loadDb none, false, none⟩).1.db)) ≠ [] := by
      intro h0
      exact hpne (List.map_eq_nil_iff.mp h0)
    rw [run_update_eq, hpurge2, save_db_pos _ _ hlassocne, dbValues_lAssoc]



/-- C1: Running the updater a second time over an unchanged remote site,
starting from the snapshot persisted by the first run, reproduces that
snapshot up to `last_updated` timestamps (in fact exactly), provided the
mirroring backend only ever reports non-empty URLs and the discovered
id space is duplicate-free. -/
theorem C1_run_update_idempotent (B : Backend) (pages : String → Page)
    (deckMap : List (String × DeckQ)) (sets : List (String × Nat)) (t1 t2 : Nat)
    (hB : ∀ u k url, B u k = UploadRes.success url → url ≠ "")
    (hnd : (allIds sets).Nodup) :
    fileEqModTs
      (run_update B pages deckMap sets t2 (run_update B pages deckMap sets t1 none))
      (run_update B pages deckMap sets t1 none) := by
  rw [run_update_idem B pages deckMap sets t1 t2 hB hnd]
  cases run_update B pages deckMap sets t1 none with
  | none => trivial
  | some l => exact List.forall₂_same.mpr (fun c _ => rfl)

/-- Witness for C1 at a concrete instance: the always-failing backend,
an all-missing site, no deck data, and the set ST01 with two items. -/
theorem C1_run_update_idempotent_witness :
    fileEqModTs
      (run_update bFail (fun _ => Page.missing) [] [("ST01", 2)] 1
        (run_update bFail (fun _ => Page.missing) [] [("ST01", 2)] 0 none))
      (run_update bFail (fun _ => Page.missing) [] [("ST01", 2)] 0 none) :=
  C1_run_update_idempotent bFail (fun _ => Page.missing) [] [("ST01", 2)] 0 1
    (fun u k url h => by simp [bFail] at h) (by decide)

end GundamDB
